import Mathlib

/-!
Verification of the squeak SQLite schema-migration helper (squeak.py).

The development shallowly embeds the program's core:
  - the Field Splitter `get_fields_from_sql` (a regex-driven split of a
    CREATE TABLE statement into column-definition fragments),
  - the column-name extraction regexes used by the three operations,
  - the create/copy/swap migration protocol run against an association-list
    model of the SQLite database, with Python exceptions made explicit in an
    `Except`-style result and the integrity outcome of the row copy supplied
    as an oracle boolean (a row copy either passes the new table's
    constraints or raises sqlite3.IntegrityError; which one happens depends
    on data the fragments do not determine, so it is a parameter).

Python exception semantics are modelled by explicit result/state pairs: a
statement that raises returns the state reached so far together with the
exception; an uncaught exception aborts the operation at that point.
-/

set_option maxRecDepth 40000

namespace Squeak

/-! ## Character classes of the Python 2 `re` module (ASCII, no re.UNICODE) -/

/-- Python's regex class `\s` (ASCII): space, tab, newline, CR, VT, FF. -/
def isPySpace (c : Char) : Bool :=
  c = ' ' || c = '\t' || c = '\n' || c = '\r' || c = '\x0b' || c = '\x0c'

/-- Python's regex class `\w` without re.UNICODE: letters, digits, underscore. -/
def isWordChar (c : Char) : Bool :=
  ('a' ≤ c && c ≤ 'z') || ('A' ≤ c && c ≤ 'Z') || ('0' ≤ c && c ≤ '9') || c = '_'

/-- The character class `["\x27]` used by every column-identifier pattern. -/
def isQuoteChar (c : Char) : Bool :=
  c = '"' || c = '\''

/-! ## Field Splitter: `get_fields_from_sql` (squeak.py lines 70-117)

The function is built from the source line by line.  All scanning is done on
`List Char`; `String` appears only at the API edge. -/

/-- `' '.join(creation_sql.split('\n'))`: fold newlines to spaces. -/
def inlineSql (s : List Char) : List Char :=
  s.map (fun c => if c = '\n' then ' ' else c)

/-- Case-insensitive literal match (the pattern is given in lower case);
returns the rest of the input on success.  Embeds a literal regex piece under
re.IGNORECASE. -/
def matchCI : List Char → List Char → Option (List Char)
  | [], cs => some cs
  | _ :: _, [] => none
  | p :: ps, c :: cs => if c.toLower = p then matchCI ps cs else none

/-- `\s+`: at least one Python-space character, consumed greedily. -/
def dropWs1 (cs : List Char) : Option (List Char) :=
  match cs with
  | c :: rest => if isPySpace c then some (rest.dropWhile isPySpace) else none
  | [] => none

/-- One optional quote character (`["\x27]?`). -/
def dropOneQuote (cs : List Char) : List Char :=
  match cs with
  | c :: rest => if isQuoteChar c then rest else c :: rest
  | [] => []

/-- Attempt the prefix `create\s+table\s+["\x27]?\w+["\x27]?\s+\(` of the
outer regex (squeak.py line 80) at the head of the input; on success return
what follows the opening parenthesis.  The alternatives of the optional
quotes and of `\w+` are disjoint character classes, so the greedy reading is
the only one and no backtracking is needed. -/
def createPrefixAt (cs : List Char) : Option (List Char) := do
  let cs ← matchCI "create".data cs
  let cs ← dropWs1 cs
  let cs ← matchCI "table".data cs
  let cs ← dropWs1 cs
  let cs := dropOneQuote cs
  let w := cs.takeWhile isWordChar
  if w.isEmpty then none else
  let cs := cs.dropWhile isWordChar
  let cs := dropOneQuote cs
  let cs ← dropWs1 cs
  match cs with
  | '(' :: rest => some rest
  | _ => none

/-- Attempt the whole outer regex
`create\s+table\s+["\x27]?\w+["\x27]?\s+\((?P<fields>.*)\)[\s\n;]*$`
at the head of the input and return the `fields` group.  The greedy `.*`
makes the closing `\)` the last `)` that is followed only by whitespace and
semicolons, so the group is the input after the prefix with that trailing
part stripped. -/
def fullMatchAt (cs : List Char) : Option (List Char) :=
  match createPrefixAt cs with
  | none => none
  | some rest =>
    match (rest.reverse.dropWhile (fun c => isPySpace c || c = ';')) with
    | ')' :: body => some body.reverse
    | _ => none

/-- `re.findall(outer_regex, s)[0]`: the group of the leftmost match (the
regex engine tries each start position left to right). -/
def findCreateGroup : List Char → Option (List Char)
  | [] => none
  | c :: rest =>
    match fullMatchAt (c :: rest) with
    | some g => some g
    | none => findCreateGroup rest

/-- `re.findall('\([^\)]+\)', fields)` (squeak.py line 91): every leftmost
non-overlapping maximal parenthesized span with no inner `)`, scanned left to
right; each returned span includes its parentheses.  Recursion is fuelled by
the input length, which bounds the number of scanning steps. -/
def parenSpansF : Nat → List Char → List (List Char)
  | 0, _ => []
  | _ + 1, [] => []
  | fuel + 1, '(' :: rest =>
    let inner := rest.takeWhile (fun c => c ≠ ')')
    if inner.isEmpty then parenSpansF fuel rest
    else
      match rest.dropWhile (fun c => c ≠ ')') with
      | ')' :: after => ('(' :: (inner ++ [')'])) :: parenSpansF fuel after
      | _ => []
  | fuel + 1, _ :: rest => parenSpansF fuel rest

def parenSpans (cs : List Char) : List (List Char) :=
  parenSpansF (cs.length + 1) cs

/-- Literal global substitution: `re.sub(escaped, repl, s)` where the pattern
is a span whose parentheses were escaped (squeak.py lines 97-101), i.e. a
literal string for the spans at hand; leftmost occurrences are replaced
without overlap, exactly re.sub's scan.  Fuelled by the input length. -/
def replaceAllF : Nat → List Char → List Char → List Char → List Char
  | 0, _, _, s => s
  | _ + 1, _, _, [] => []
  | fuel + 1, pat, repl, c :: rest =>
    if pat ≠ [] && pat.isPrefixOf (c :: rest) then
      repl ++ replaceAllF fuel pat repl ((c :: rest).drop pat.length)
    else
      c :: replaceAllF fuel pat repl rest

def replaceAll (pat repl s : List Char) : List Char :=
  replaceAllF (s.length + 1) pat repl s

/-- `fields.split(',')` (squeak.py line 104): Python's split keeps empty
pieces. -/
def splitOnChar (sep : Char) : List Char → List (List Char)
  | [] => [[]]
  | c :: rest =>
    if c = sep then [] :: splitOnChar sep rest
    else
      match splitOnChar sep rest with
      | f :: fs => (c :: f) :: fs
      | [] => [[c]]

/-- `re.sub('(^\s+|\s+$)', '', field)` (squeak.py line 107): remove the
leading and the trailing whitespace run. -/
def pyStrip (cs : List Char) : List Char :=
  ((cs.dropWhile isPySpace).reverse.dropWhile isPySpace).reverse

/-- The placeholder `'#__#'` of squeak.py line 101. -/
def placeholderL : List Char := "#__#".data

/-- `re.search('#__#', field)`: whether the pattern occurs in the field. -/
def containsSub (pat : List Char) : List Char → Bool
  | [] => pat.isEmpty
  | c :: rest => pat.isPrefixOf (c :: rest) || containsSub pat rest

/-- The restore loop (squeak.py lines 110-115): a field that contains the
placeholder has ALL its placeholder occurrences substituted by the single
span popped from the front of the queue (`re.sub('#__#', matches.pop(0),
field)` replaces every occurrence with the same popped text).  `none` models
the IndexError of popping an empty queue. -/
def restoreFields : List (List Char) → List (List Char) → Option (List (List Char))
  | [], _ => some []
  | f :: fs, queue =>
    if containsSub placeholderL f then
      match queue with
      | m :: q' =>
        match restoreFields fs q' with
        | some r => some (replaceAll placeholderL m f :: r)
        | none => none
      | [] => none
  else
      match restoreFields fs queue with
      | some r => some (f :: r)
      | none => none

/-- `get_fields_from_sql` (squeak.py lines 70-117).  `none` models the
IndexError raised by `re.findall(outer_regex, s)[0]` when the creation SQL
does not match, or by `matches.pop(0)` on an exhausted queue. -/
def get_fields_from_sql (creation_sql : String) : Option (List String) :=
  let inline := inlineSql creation_sql.data
  match findCreateGroup inline with
  | none => none
  | some fieldsChars =>
    let ms := parenSpans fieldsChars
    let replaced := ms.foldl (fun s m => replaceAll m placeholderL s) fieldsChars
    let frags := (splitOnChar ',' replaced).map pyStrip
    match restoreFields frags ms with
    | none => none
    | some fs => some (fs.map String.mk)

/-! ## Column-name extraction (the per-operation regexes of squeak.py)

`drop_column` (line 169) and `rename_column` (line 206) both match the
pattern `["\x27]?(\w+)["\x27]?` at the start of a field; a failed match makes
`.group(...)` raise AttributeError.  `replace_definition` (line 240) searches
`["\x27]?(\w+)["\x27]?\s(.*)` anywhere in the field and takes the first
match; an empty `findall` makes `[0]` raise IndexError. -/

/-- `re.match(r'["\x27]?(?P<column>\w+)["\x27]?', field)`: the leading
identifier, or `none` when the match fails.  If the optional quote is
consumed, backtracking cannot help a failing `\w+` (the quote is not a word
character), so the greedy reading is complete. -/
def matchColName (f : String) : Option String :=
  let cs := dropOneQuote f.data
  let w := cs.takeWhile isWordChar
  if w.isEmpty then none else some (String.mk w)

/-- The leading identifiers of all fields; `none` as soon as one field fails
the match (the Python loop raises AttributeError there). -/
def extractCols : List String → Option (List String)
  | [] => some []
  | f :: fs =>
    match matchColName f with
    | none => none
    | some c =>
      match extractCols fs with
      | none => none
      | some cs => some (c :: cs)

/-- The filtering loop of `drop_column` (squeak.py lines 167-176): returns
(surviving column names, surviving fields); `none` models the AttributeError
of a failed leading-identifier match. -/
def dropScan (column_name : String) : List String → Option (List String × List String)
  | [] => some ([], [])
  | f :: fs =>
    match matchColName f with
    | none => none
    | some c =>
      match dropScan column_name fs with
      | none => none
      | some (cs, nfs) =>
        if c = column_name then some (cs, nfs)
        else some (c :: cs, f :: nfs)

/-- `re.sub(r'^["\x27]?OLD["\x27]?', '"NEW"', field)` (squeak.py lines
209-211), in the only case the source applies it: the leading identifier of
`field` is exactly `old`, so the pattern consumes the optional opening
quote, the identifier, and an optional closing quote, and is replaced by the
quoted new name; the rest of the definition is untouched. -/
def renameField (f old new : String) : String :=
  let rest := dropOneQuote ((dropOneQuote f.data).drop old.length)
  "\"" ++ new ++ "\"" ++ String.mk rest

/-- The rewrite loop of `rename_column` (squeak.py lines 203-212): every
field whose leading identifier equals `old` is rewritten (the loop has no
break), the rest pass through; the Bool is the `found` flag.  `none` models
the AttributeError of a failed match. -/
def renameScan (old new : String) : List String → Option (Bool × List String)
  | [] => some (false, [])
  | f :: fs =>
    match matchColName f with
    | none => none
    | some c =>
      match renameScan old new fs with
      | none => none
      | some (found, gs) =>
        if c = old then some (true, renameField f old new :: gs)
        else some (found, f :: gs)

/-- One attempt of `["\x27]?(\w+)["\x27]?\s(.*)` at the current position.
After the greedy `\w+`, the next character is not a word character; it must
be a quote followed by whitespace, or whitespace directly — any shorter
`\w+` puts a word character where the quote or `\s` has to match, so no
further backtracking exists.  `(.*)` without re.DOTALL stops at a newline. -/
def findallAt (cs : List Char) : Option (List Char × List Char) :=
  let cs1 := dropOneQuote cs
  let w := cs1.takeWhile isWordChar
  if w.isEmpty then none
  else
    match cs1.dropWhile isWordChar with
    | [] => none
    | c :: cs2 =>
      if isQuoteChar c then
        match cs2 with
        | c2 :: cs3 => if isPySpace c2 then some (w, cs3.takeWhile (fun x => x ≠ '\n')) else none
        | [] => none
      else if isPySpace c then some (w, cs2.takeWhile (fun x => x ≠ '\n'))
      else none

/-- The first match of the unanchored search (`findall(...)[0]`): the regex
engine tries each start position left to right. -/
def findallFirstL : List Char → Option (List Char × List Char)
  | [] => none
  | c :: rest =>
    match findallAt (c :: rest) with
    | some r => some r
    | none => findallFirstL rest

/-- `column_parsing.findall(field)[0]` of `replace_definition` (squeak.py
lines 240-244): the (identifier, definition tail) of the first match, or
`none` for the IndexError on an empty result. -/
def findallFirst (f : String) : Option (String × String) :=
  match findallFirstL f.data with
  | some (w, d) => some (String.mk w, String.mk d)
  | none => none

/-- `if definition[-1] == ',': definition = definition[:-1]` (squeak.py lines
248-249); `none` models the IndexError of indexing an empty string. -/
def trimComma (d : String) : Option String :=
  match d.data.reverse with
  | [] => none
  | c :: rest => if c = ',' then some (String.mk rest.reverse) else some d

/-- The field-rebuilding loop of `replace_definition` (squeak.py lines
240-250): every field is split into (name, tail), the matched column's tail
is replaced by `new_definition`, a stray trailing comma is trimmed, and the
field is rebuilt in the canonical `"name" tail` form.  The Bool is the
`found_column` flag; `none` models the IndexError crashes. -/
def replaceScanF (column_name new_definition : String) : List String → Option (Bool × List String)
  | [] => some (false, [])
  | f :: fs =>
    match findallFirst f with
    | none => none
    | some (c, d0) =>
      match trimComma (if c = column_name then new_definition else d0) with
      | none => none
      | some d =>
        match replaceScanF column_name new_definition fs with
        | none => none
        | some (found, gs) =>
          some ((c = column_name : Bool) || found, ("\"" ++ c ++ "\" " ++ d) :: gs)

/-! ## The database model

A SQLite database is an association list from table names to tables; a table
keeps the field texts it was created with and its rows (row contents are
opaque to every property at stake, so a row is an uninterpreted list of
nullable cells and the copy steps move rows wholesale — the column projection
of `drop_column`'s INSERT only changes cell contents, which no claim
observes).  A statement returns the state it leaves behind together with the
Python exception it raises, if any. -/

/-- The Python exceptions reachable from the embedded code. -/
inductive PyExc where
  | squeakError (msg : String)
  | attributeError
  | indexError
  | operationalError
  | integrityError
deriving DecidableEq, Repr

structure Table where
  schema : List String
  rows : List (List (Option String))
deriving DecidableEq, Repr

abbrev DbState := List (String × Table)

/-- Lookup by table name (first entry wins; creation keeps names unique). -/
def lookupT : DbState → String → Option Table
  | [], _ => none
  | (k, v) :: rest, n => if k = n then some v else lookupT rest n

/-- `DROP TABLE n`'s effect on the store. -/
def removeT (db : DbState) (n : String) : DbState :=
  db.filter (fun p => p.1 ≠ n)

/-- `ALTER TABLE a RENAME TO b`'s effect on the store. -/
def renameT (db : DbState) (a b : String) : DbState :=
  db.map (fun p => if p.1 = a then (b, p.2) else p)

/-- Replacing the rows of table `n`. -/
def setRows (db : DbState) (n : String) (rows : List (List (Option String))) : DbState :=
  db.map (fun p => if p.1 = n then (p.1, Table.mk p.2.schema rows) else p)

/-- `_create_table` (squeak.py lines 139-145): `CREATE TABLE "n" (fields)`.
SQLite rejects a duplicate table name and an empty column list (the join of
no fields produces `()`, a syntax error); both raise
sqlite3.OperationalError. -/
def create_table (db : DbState) (n : String) (fields : List String) : DbState × Option PyExc :=
  if fields.isEmpty || (lookupT db n).isSome then (db, some .operationalError)
  else ((n, Table.mk fields []) :: db, none)

/-- `DROP TABLE n;`: OperationalError when the table does not exist. -/
def dropTbl (db : DbState) (n : String) : DbState × Option PyExc :=
  if (lookupT db n).isSome then (removeT db n, none) else (db, some .operationalError)

/-- `ALTER TABLE a RENAME TO b;`: OperationalError when `a` does not exist
or `b` already does. -/
def renameTbl (db : DbState) (a b : String) : DbState × Option PyExc :=
  if (lookupT db a).isSome && (lookupT db b).isNone then (renameT db a b, none)
  else (db, some .operationalError)

/-- `INSERT INTO dst ... SELECT ... FROM src;`: both copy modes of the
protocol.  `copyOk` is the oracle for whether the copied rows satisfy the
destination's constraints; `false` raises sqlite3.IntegrityError and leaves
both tables as they were. -/
def insertSelect (db : DbState) (dst src : String) (copyOk : Bool) : DbState × Option PyExc :=
  match lookupT db dst, lookupT db src with
  | some d, some s =>
    if copyOk then (setRows db dst (d.rows ++ s.rows), none)
    else (db, some .integrityError)
  | _, _ => (db, some .operationalError)

/-- `_cleanup_tables` (squeak.py lines 147-162): archive or drop the live
table, then rename the shadow table to the live name.  An exception from the
first statement aborts before the second. -/
def cleanup_tables (db : DbState) (t : String) (safe : Bool) : DbState × Option PyExc :=
  match (if safe then renameTbl db t (t ++ "_initial") else dropTbl db t) with
  | (db1, some e) => (db1, some e)
  | (db1, none) => renameTbl db1 (t ++ "_tmp") t

/-! ## The Schema Mutator -/

/-- The mutable state of a `Squeak` instance: the bound table name and the
in-memory field list. -/
structure SqueakSt where
  table_name : String
  fields : List String
deriving DecidableEq, Repr

instance {ε α : Type} [DecidableEq ε] [DecidableEq α] : DecidableEq (Except ε α) :=
  fun a b =>
    match a, b with
    | .ok x, .ok y =>
      if h : x = y then isTrue (by rw [h]) else isFalse (fun hh => by cases hh; exact h rfl)
    | .error x, .error y =>
      if h : x = y then isTrue (by rw [h]) else isFalse (fun hh => by cases hh; exact h rfl)
    | .ok _, .error _ => isFalse (fun hh => by cases hh)
    | .error _, .ok _ => isFalse (fun hh => by cases hh)

/-- What one operation call leaves behind: the returned pair or the raised
exception, the database state reached, and the instance state. -/
structure OpOut where
  result : Except PyExc (Bool × String)
  db : DbState
  st : SqueakSt
deriving DecidableEq, Repr

/-- `Squeak.drop_column` (squeak.py lines 164-200). -/
def drop_column (st : SqueakSt) (db : DbState) (column_name : String)
    (safe copyOk : Bool) : OpOut :=
  let t := st.table_name
  match dropScan column_name st.fields with
  | none => OpOut.mk (.error .attributeError) db st
  | some (_, new_fields) =>
    if new_fields.length = st.fields.length then
      OpOut.mk (.ok (false, "No such column: '" ++ column_name ++ "'")) db st
    else
      match create_table db (t ++ "_tmp") new_fields with
      | (db1, some e) => OpOut.mk (.error e) db1 st
      | (db1, none) =>
        match insertSelect db1 (t ++ "_tmp") t copyOk with
        | (db2, some e) => OpOut.mk (.error e) db2 st
        | (db2, none) =>
          match cleanup_tables db2 t safe with
          | (db3, some e) => OpOut.mk (.error e) db3 st
          | (db3, none) =>
            OpOut.mk (.ok (true, "Column '" ++ column_name ++ "' dropped."))
              db3 (SqueakSt.mk t new_fields)

/-- `Squeak.rename_column` (squeak.py lines 202-231). -/
def rename_column (st : SqueakSt) (db : DbState) (old_column new_column : String)
    (safe copyOk : Bool) : OpOut :=
  let t := st.table_name
  match renameScan old_column new_column st.fields with
  | none => OpOut.mk (.error .attributeError) db st
  | some (found, fields) =>
    if !found then
      OpOut.mk (.ok (false, "No such column: '" ++ old_column ++ "'")) db st
    else
      match create_table db (t ++ "_tmp") fields with
      | (db1, some e) => OpOut.mk (.error e) db1 st
      | (db1, none) =>
        match insertSelect db1 (t ++ "_tmp") t copyOk with
        | (db2, some e) => OpOut.mk (.error e) db2 st
        | (db2, none) =>
          match cleanup_tables db2 t safe with
          | (db3, some e) => OpOut.mk (.error e) db3 st
          | (db3, none) =>
            OpOut.mk
              (.ok (true, "Column '" ++ old_column ++ "' renamed to '" ++ new_column ++ "'."))
              db3 (SqueakSt.mk t fields)

/-- The failure message of `replace_definition`'s integrity handler
(squeak.py lines 266-273). -/
def integrityMsg : String :=
  "The column definition you have supplied is raising " ++
  "an integrity error when Sqlite3 is copying the data " ++
  "from the original table to the " ++
  "new table " ++
  "(for example if you're adding a NOT NULL constraint " ++
  "on a column that already has null values). " ++
  "Please check your definition and/or the existing data " ++
  "in the original table."

/-- `Squeak.replace_definition` (squeak.py lines 233-286).  Only the data
copy is guarded by `try/except sqlite3.IntegrityError`; that handler drops
the shadow table and returns the failure pair. -/
def replace_definition (st : SqueakSt) (db : DbState) (column_name new_definition : String)
    (safe copyOk : Bool) : OpOut :=
  let t := st.table_name
  match replaceScanF column_name new_definition st.fields with
  | none => OpOut.mk (.error .indexError) db st
  | some (found, fields) =>
    if !found then
      OpOut.mk (.ok (false, "No such column: " ++ column_name)) db st
    else
      match create_table db (t ++ "_tmp") fields with
      | (db1, some e) => OpOut.mk (.error e) db1 st
      | (db1, none) =>
        match insertSelect db1 (t ++ "_tmp") t copyOk with
        | (db2, some .integrityError) =>
          match dropTbl db2 (t ++ "_tmp") with
          | (db3, some e) => OpOut.mk (.error e) db3 st
          | (db3, none) => OpOut.mk (.ok (false, integrityMsg)) db3 st
        | (db2, some e) => OpOut.mk (.error e) db2 st
        | (db2, none) =>
          match cleanup_tables db2 t safe with
          | (db3, some e) => OpOut.mk (.error e) db3 st
          | (db3, none) =>
            OpOut.mk
              (.ok (true, "Changed the definition for column " ++ column_name ++
                " to: " ++ new_definition))
              db3 (SqueakSt.mk t fields)

/-- `Squeak.__init__` (squeak.py lines 121-137).  The catalog lookup
`cursor.execute("select sql from sqlite_master where tbl_name = ?").fetchone()`
is modelled by its result: `none` for no row, `some none` for a row whose
sql column is NULL (a non-table catalog entry such as an auto-index), and
`some (some sql)` for a row carrying creation SQL.  Subscripting the `None`
of a missing row raises TypeError, which the `except (IndexError, TypeError)`
turns into `SqueakError("No such table: ...")`; a NULL sql value subscripts
fine, escapes the handler, and crashes later with AttributeError when
`get_fields_from_sql` calls `.split` on `None`. -/
def squeakInit (row : Option (Option String)) (table_name : String) :
    Except PyExc (String × List String) :=
  match row with
  | none => .error (.squeakError ("No such table: '" ++ table_name ++ "'"))
  | some none => .error .attributeError
  | some (some sql) =>
    match get_fields_from_sql sql with
    | none => .error .indexError
    | some fs => .ok (sql, fs)

/-! ## Store lemmas -/

theorem lookupT_cons (k : String) (v : Table) (db : DbState) (n : String) :
    lookupT ((k, v) :: db) n = if k = n then some v else lookupT db n := rfl

theorem lookupT_cons_ne (k : String) (v : Table) (db : DbState) (n : String)
    (h : k ≠ n) : lookupT ((k, v) :: db) n = lookupT db n := by
  simp [lookupT_cons, h]

theorem renameT_nil (a b : String) : renameT [] a b = [] := rfl

theorem renameT_cons (k : String) (v : Table) (db : DbState) (a b : String) :
    renameT ((k, v) :: db) a b
      = (if k = a then (b, v) else (k, v)) :: renameT db a b := by
  by_cases hk : k = a <;> simp [renameT, hk]

theorem removeT_nil (n : String) : removeT [] n = [] := rfl

theorem removeT_cons (k : String) (v : Table) (db : DbState) (n : String) :
    removeT ((k, v) :: db) n
      = if k = n then removeT db n else (k, v) :: removeT db n := by
  by_cases hk : k = n <;> simp [removeT, List.filter_cons, hk]

theorem setRows_nil (n : String) (r : List (List (Option String))) :
    setRows [] n r = [] := rfl

theorem setRows_cons (k : String) (v : Table) (db : DbState) (n : String)
    (r : List (List (Option String))) :
    setRows ((k, v) :: db) n r
      = (if k = n then (k, Table.mk v.schema r) else (k, v)) :: setRows db n r := by
  by_cases hk : k = n <;> simp [setRows, hk]

theorem lookup_rename_self (db : DbState) (a b : String) (hab : a ≠ b) :
    lookupT (renameT db a b) a = none := by
  induction db with
  | nil => rfl
  | cons p rest ih =>
    obtain ⟨k, v⟩ := p
    rw [renameT_cons]
    by_cases hk : k = a
    · simp [hk, lookupT_cons, Ne.symm hab, ih]
    · simp [hk, lookupT_cons, ih]

theorem lookup_rename_other (db : DbState) (a b m : String)
    (hma : m ≠ a) (hmb : m ≠ b) :
    lookupT (renameT db a b) m = lookupT db m := by
  induction db with
  | nil => rfl
  | cons p rest ih =>
    obtain ⟨k, v⟩ := p
    rw [renameT_cons]
    by_cases hk : k = a
    · simp [hk, lookupT_cons, Ne.symm hma, Ne.symm hmb, ih]
    · simp [hk, lookupT_cons, ih]

theorem lookup_rename_target (db : DbState) (a b : String)
    (hb : lookupT db b = none) :
    lookupT (renameT db a b) b = lookupT db a := by
  induction db with
  | nil => rfl
  | cons p rest ih =>
    obtain ⟨k, v⟩ := p
    rw [lookupT_cons] at hb
    by_cases hkb : k = b
    · simp [hkb] at hb
    · simp [hkb] at hb
      rw [renameT_cons]
      by_cases hk : k = a
      · simp [hk, lookupT_cons]
      · simp [hk, lookupT_cons, hkb, ih hb]

theorem lookup_remove_self (db : DbState) (n : String) :
    lookupT (removeT db n) n = none := by
  induction db with
  | nil => rfl
  | cons p rest ih =>
    obtain ⟨k, v⟩ := p
    rw [removeT_cons]
    by_cases hk : k = n
    · simp [hk, ih]
    · simp [hk, lookupT_cons, ih]

theorem lookup_remove_other (db : DbState) (n m : String) (hm : m ≠ n) :
    lookupT (removeT db n) m = lookupT db m := by
  induction db with
  | nil => rfl
  | cons p rest ih =>
    obtain ⟨k, v⟩ := p
    rw [removeT_cons]
    by_cases hk : k = n
    · simp [hk, lookupT_cons, Ne.symm hm, ih]
    · simp [hk, lookupT_cons, ih]

theorem renameT_absent (db : DbState) (a b : String)
    (ha : lookupT db a = none) : renameT db a b = db := by
  induction db with
  | nil => rfl
  | cons p rest ih =>
    obtain ⟨k, v⟩ := p
    rw [lookupT_cons] at ha
    by_cases hk : k = a
    · simp [hk] at ha
    · simp [hk] at ha
      rw [renameT_cons]
      simp [hk, ih ha]

theorem removeT_absent (db : DbState) (n : String)
    (hn : lookupT db n = none) : removeT db n = db := by
  induction db with
  | nil => rfl
  | cons p rest ih =>
    obtain ⟨k, v⟩ := p
    rw [lookupT_cons] at hn
    by_cases hk : k = n
    · simp [hk] at hn
    · simp [hk] at hn
      rw [removeT_cons]
      simp [hk, ih hn]

theorem setRows_absent (db : DbState) (n : String) (r : List (List (Option String)))
    (hn : lookupT db n = none) : setRows db n r = db := by
  induction db with
  | nil => rfl
  | cons p rest ih =>
    obtain ⟨k, v⟩ := p
    rw [lookupT_cons] at hn
    by_cases hk : k = n
    · simp [hk] at hn
    · simp [hk] at hn
      rw [setRows_cons]
      simp [hk, ih hn]

/-! ## Name disjointness and statement-step lemmas -/

theorem tmp_ne_self (t : String) : t ++ "_tmp" ≠ t := by
  intro h
  have h2 := congrArg String.length h
  rw [String.length_append] at h2
  have h3 : "_tmp".length = 4 := rfl
  omega

theorem ini_ne_self (t : String) : t ++ "_initial" ≠ t := by
  intro h
  have h2 := congrArg String.length h
  rw [String.length_append] at h2
  have h3 : "_initial".length = 8 := rfl
  omega

theorem tmp_ne_ini (t : String) : t ++ "_tmp" ≠ t ++ "_initial" := by
  intro h
  have h2 := congrArg String.length h
  rw [String.length_append, String.length_append] at h2
  have h3 : "_tmp".length = 4 := rfl
  have h4 : "_initial".length = 8 := rfl
  omega

theorem create_table_ok (db : DbState) (n : String) (fields : List String)
    (h1 : fields ≠ []) (h2 : lookupT db n = none) :
    create_table db n fields = ((n, Table.mk fields []) :: db, none) := by
  cases fields with
  | nil => exact absurd rfl h1
  | cons f fs => simp [create_table, h2]

theorem insertSelect_ok (db : DbState) (dst src : String) (d s : Table)
    (hd : lookupT db dst = some d) (hs : lookupT db src = some s) :
    insertSelect db dst src true = (setRows db dst (d.rows ++ s.rows), none) := by
  simp [insertSelect, hd, hs]

theorem insertSelect_fail (db : DbState) (dst src : String) (d s : Table)
    (hd : lookupT db dst = some d) (hs : lookupT db src = some s) :
    insertSelect db dst src false = (db, some .integrityError) := by
  simp [insertSelect, hd, hs]

/-- The exact behaviour of `_cleanup_tables` on the state the protocol
reaches it in: the shadow table at the head of the store and no other entry
named `t_tmp`. -/
theorem cleanup_shape (x : Table) (db : DbState) (t : String) (safe : Bool)
    (htmp : lookupT db (t ++ "_tmp") = none) :
    cleanup_tables ((t ++ "_tmp", x) :: db) t safe =
      if safe then
        (if lookupT db t ≠ none ∧ lookupT db (t ++ "_initial") = none
         then ((t, x) :: renameT db t (t ++ "_initial"), none)
         else ((t ++ "_tmp", x) :: db, some .operationalError))
      else
        (if lookupT db t ≠ none
         then ((t, x) :: removeT db t, none)
         else ((t ++ "_tmp", x) :: db, some .operationalError)) := by
  have hlt : lookupT ((t ++ "_tmp", x) :: db) t = lookupT db t :=
    lookupT_cons_ne _ _ _ _ (tmp_ne_self t)
  have hli : lookupT ((t ++ "_tmp", x) :: db) (t ++ "_initial") = lookupT db (t ++ "_initial") :=
    lookupT_cons_ne _ _ _ _ (tmp_ne_ini t)
  have hltmp : lookupT ((t ++ "_tmp", x) :: db) (t ++ "_tmp") = some x := by
    simp [lookupT_cons]
  cases safe with
  | true =>
    by_cases hc : lookupT db t ≠ none ∧ lookupT db (t ++ "_initial") = none
    · obtain ⟨hc1, hc2⟩ := hc
      have hstep1 : renameTbl ((t ++ "_tmp", x) :: db) t (t ++ "_initial")
          = ((t ++ "_tmp", x) :: renameT db t (t ++ "_initial"), none) := by
        simp only [renameTbl, hlt, hli]
        simp [Option.isSome_iff_ne_none, hc1, hc2, renameT_cons, tmp_ne_self t]
      have habs : lookupT (renameT db t (t ++ "_initial")) (t ++ "_tmp") = none := by
        rw [lookup_rename_other db t (t ++ "_initial") (t ++ "_tmp")
          (tmp_ne_self t) (tmp_ne_ini t)]
        exact htmp
      have h1 : lookupT ((t ++ "_tmp", x) :: renameT db t (t ++ "_initial")) (t ++ "_tmp")
          = some x := by simp [lookupT_cons]
      have h2 : lookupT ((t ++ "_tmp", x) :: renameT db t (t ++ "_initial")) t = none := by
        rw [lookupT_cons_ne _ _ _ _ (tmp_ne_self t)]
        exact lookup_rename_self db t (t ++ "_initial") (fun h => (ini_ne_self t) h.symm)
      have hstep2 : renameTbl ((t ++ "_tmp", x) :: renameT db t (t ++ "_initial")) (t ++ "_tmp") t
          = ((t, x) :: renameT db t (t ++ "_initial"), none) := by
        simp only [renameTbl, h1, h2]
        simp [renameT_cons, renameT_absent _ _ _ habs]
      simp only [cleanup_tables, if_true, hstep1, hstep2]
      simp [hc1, hc2]
    · have hfail : renameTbl ((t ++ "_tmp", x) :: db) t (t ++ "_initial")
          = ((t ++ "_tmp", x) :: db, some .operationalError) := by
        simp only [renameTbl, hlt, hli]
        rcases Decidable.not_and_iff_or_not.mp hc with h | h
        · simp only [ne_eq, not_not] at h
          simp [h]
        · simp [Option.isNone_iff_eq_none, h]
      simp only [cleanup_tables, if_true, hfail]
      simp [hc]
  | false =>
    by_cases hc : lookupT db t ≠ none
    · have hstep1 : dropTbl ((t ++ "_tmp", x) :: db) t
          = ((t ++ "_tmp", x) :: removeT db t, none) := by
        simp only [dropTbl, hlt]
        simp [Option.isSome_iff_ne_none, hc, removeT_cons, tmp_ne_self t]
      have habs : lookupT (removeT db t) (t ++ "_tmp") = none := by
        rw [lookup_remove_other db t (t ++ "_tmp") (tmp_ne_self t)]
        exact htmp
      have h1 : lookupT ((t ++ "_tmp", x) :: removeT db t) (t ++ "_tmp") = some x := by
        simp [lookupT_cons]
      have h2 : lookupT ((t ++ "_tmp", x) :: removeT db t) t = none := by
        rw [lookupT_cons_ne _ _ _ _ (tmp_ne_self t)]
        exact lookup_remove_self db t
      have hstep2 : renameTbl ((t ++ "_tmp", x) :: removeT db t) (t ++ "_tmp") t
          = ((t, x) :: removeT db t, none) := by
        simp only [renameTbl, h1, h2]
        simp [renameT_cons, renameT_absent _ _ _ habs]
      simp only [cleanup_tables, if_false, hstep1, hstep2]
      simp [hc]
      exact hstep2
    · have hfail : dropTbl ((t ++ "_tmp", x) :: db) t
          = ((t ++ "_tmp", x) :: db, some .operationalError) := by
        simp only [dropTbl, hlt]
        simp only [ne_eq, not_not] at hc
        simp [hc]
      simp only [cleanup_tables, if_false, hfail]
      simp [hc]

/-! ## Characterizations of the per-operation scanning loops -/

theorem extractCols_length (fields cols : List String)
    (h : extractCols fields = some cols) : fields.length = cols.length := by
  induction fields generalizing cols with
  | nil => simp [extractCols] at h; simp [← h]
  | cons f fs ih =>
    rw [extractCols] at h
    cases hm : matchColName f with
    | none => rw [hm] at h; exact absurd h (by simp)
    | some c =>
      rw [hm] at h
      cases hr : extractCols fs with
      | none => rw [hr] at h; exact absurd h (by simp)
      | some cs =>
        rw [hr] at h
        simp at h
        subst h
        simp [ih cs hr]

/-- With every field matching, `dropScan` filters by the extracted name. -/
theorem dropScan_of_extract (c : String) (fields cols : List String)
    (h : extractCols fields = some cols) :
    dropScan c fields
      = some (((fields.zip cols).filter (fun p => p.2 ≠ c)).map Prod.snd,
          ((fields.zip cols).filter (fun p => p.2 ≠ c)).map Prod.fst) := by
  induction fields generalizing cols with
  | nil =>
    simp [extractCols] at h
    subst h
    simp [dropScan]
  | cons f fs ih =>
    rw [extractCols] at h
    cases hm : matchColName f with
    | none => rw [hm] at h; exact absurd h (by simp)
    | some c0 =>
      rw [hm] at h
      cases hr : extractCols fs with
      | none => rw [hr] at h; exact absurd h (by simp)
      | some cs =>
        rw [hr] at h
        simp at h
        subst h
        rw [dropScan, hm, ih cs hr]
        by_cases hc0 : c0 = c
        · simp [hc0, List.filter_cons]
        · simp [hc0, List.filter_cons]

/-- A column absent from the extracted names leaves `dropScan` with the full
field list. -/
theorem dropScan_no_match (c : String) (fields cols : List String)
    (h : extractCols fields = some cols) (hc : c ∉ cols) :
    ∃ csk, dropScan c fields = some (csk, fields) := by
  induction fields generalizing cols with
  | nil => exact ⟨[], rfl⟩
  | cons f fs ih =>
    rw [extractCols] at h
    cases hm : matchColName f with
    | none => rw [hm] at h; exact absurd h (by simp)
    | some c0 =>
      rw [hm] at h
      cases hr : extractCols fs with
      | none => rw [hr] at h; exact absurd h (by simp)
      | some cs =>
        rw [hr] at h
        simp at h
        subst h
        simp at hc
        obtain ⟨hc0, hcs⟩ := hc
        obtain ⟨csk, hscan⟩ := ih cs hr hcs
        refine ⟨c0 :: csk, ?_⟩
        rw [dropScan, hm, hscan]
        simp [Ne.symm hc0]

/-- With every field matching, `renameScan` rewrites exactly the fields whose
extracted name equals `old` and reports whether any did. -/
theorem renameScan_of_extract (old new : String) (fields cols : List String)
    (h : extractCols fields = some cols) :
    renameScan old new fields
      = some (decide (old ∈ cols),
          (fields.zip cols).map (fun p => if p.2 = old then renameField p.1 old new else p.1)) := by
  induction fields generalizing cols with
  | nil =>
    simp [extractCols] at h
    subst h
    simp [renameScan]
  | cons f fs ih =>
    rw [extractCols] at h
    cases hm : matchColName f with
    | none => rw [hm] at h; exact absurd h (by simp)
    | some c0 =>
      rw [hm] at h
      cases hr : extractCols fs with
      | none => rw [hr] at h; exact absurd h (by simp)
      | some cs =>
        rw [hr] at h
        simp at h
        subst h
        rw [renameScan, hm, ih cs hr]
        by_cases hc0 : c0 = old
        · simp [hc0]
        · simp [hc0, Ne.symm hc0]

/-- With no extracted identifier equal to the requested column, the
`found_column` flag of `replace_definition`'s loop stays false. -/
theorem replaceScanF_not_found (c d : String) (fields : List String)
    (found : Bool) (fs' : List String)
    (h : replaceScanF c d fields = some (found, fs'))
    (hn : ∀ f ∈ fields, ∀ n t, findallFirst f = some (n, t) → n ≠ c) :
    found = false := by
  induction fields generalizing found fs' with
  | nil => simp [replaceScanF] at h; simp [h.1]
  | cons f fs ih =>
    cases hf : findallFirst f with
    | none => simp only [replaceScanF, hf] at h; exact absurd h (by simp)
    | some p =>
      obtain ⟨n, t⟩ := p
      have hnc : n ≠ c := hn f (by simp) n t hf
      cases htc : trimComma (if n = c then d else t) with
      | none => simp only [replaceScanF, hf, htc] at h; exact absurd h (by simp)
      | some d2 =>
        cases hrest : replaceScanF c d fs with
        | none => simp only [replaceScanF, hf, htc, hrest] at h; exact absurd h (by simp)
        | some q =>
          obtain ⟨found2, gs⟩ := q
          simp only [replaceScanF, hf, htc, hrest] at h
          have hf2 : found2 = false := ih found2 gs hrest (fun g hg => hn g (by simp [hg]))
          subst hf2
          simp [hnc] at h
          exact h.1

/-! ## Step inversions and the protocol's success run -/

theorem create_table_ok_inv (db : DbState) (n : String) (fields : List String)
    (db' : DbState) (h : create_table db n fields = (db', none)) :
    fields ≠ [] ∧ lookupT db n = none ∧ db' = (n, Table.mk fields []) :: db := by
  by_cases hc : fields.isEmpty || (lookupT db n).isSome
  · simp [create_table, hc] at h
  · simp [create_table, hc] at h
    simp at hc
    obtain ⟨h1, h2⟩ := hc
    refine ⟨?_, ?_, h.symm⟩
    · intro hx; subst hx; simp at h1
    · exact Option.not_isSome_iff_eq_none.mp (by simp [h2])

theorem create_table_err_inv (db : DbState) (n : String) (fields : List String)
    (db' : DbState) (e : PyExc) (h : create_table db n fields = (db', some e)) :
    db' = db ∧ e = .operationalError := by
  by_cases hc : fields.isEmpty || (lookupT db n).isSome
  · simp [create_table, hc] at h
    exact ⟨h.1.symm, h.2.symm⟩
  · simp [create_table, hc] at h

theorem insertSelect_ok_inv (db : DbState) (dst src : String) (copyOk : Bool)
    (db' : DbState) (h : insertSelect db dst src copyOk = (db', none)) :
    ∃ d s, lookupT db dst = some d ∧ lookupT db src = some s ∧ copyOk = true ∧
      db' = setRows db dst (d.rows ++ s.rows) := by
  cases hd : lookupT db dst with
  | none => simp [insertSelect, hd] at h
  | some d =>
    cases hs : lookupT db src with
    | none => simp [insertSelect, hd, hs] at h
    | some s =>
      cases copyOk with
      | true =>
        simp [insertSelect, hd, hs] at h
        exact ⟨d, s, rfl, rfl, rfl, h.symm⟩
      | false => simp [insertSelect, hd, hs] at h

theorem insertSelect_err_inv (db : DbState) (dst src : String) (copyOk : Bool)
    (db' : DbState) (e : PyExc) (h : insertSelect db dst src copyOk = (db', some e)) :
    db' = db ∧ (e = .operationalError ∨ e = .integrityError) := by
  cases hd : lookupT db dst with
  | none =>
    simp [insertSelect, hd] at h
    exact ⟨h.1.symm, Or.inl h.2.symm⟩
  | some d =>
    cases hs : lookupT db src with
    | none =>
      simp [insertSelect, hd, hs] at h
      exact ⟨h.1.symm, Or.inl h.2.symm⟩
    | some s =>
      cases copyOk with
      | true => simp [insertSelect, hd, hs] at h
      | false =>
        simp [insertSelect, hd, hs] at h
        exact ⟨h.1.symm, Or.inr h.2.symm⟩

theorem cleanup_err_inv (db : DbState) (t : String) (safe : Bool)
    (db' : DbState) (e : PyExc) (h : cleanup_tables db t safe = (db', some e)) :
    e = .operationalError := by
  rw [cleanup_tables] at h
  cases hs : (if safe then renameTbl db t (t ++ "_initial") else dropTbl db t) with
  | mk db1 e1 =>
    have hs' : (if safe then renameTbl db t (t ++ "_initial") else dropTbl db t)
        = (db1, e1) := hs
    cases e1 with
    | some e2 =>
      rw [hs'] at h
      simp at h
      obtain ⟨-, h2⟩ := h
      subst h2
      cases safe with
      | true =>
        simp at hs'
        rw [renameTbl] at hs'
        by_cases hc : (lookupT db t).isSome && (lookupT db (t ++ "_initial")).isNone
        · simp [hc] at hs'
        · simp [hc] at hs'
          exact hs'.2.symm
      | false =>
        simp at hs'
        rw [dropTbl] at hs'
        by_cases hc : (lookupT db t).isSome
        · simp [hc] at hs'
        · simp [hc] at hs'
          exact hs'.2.symm
    | none =>
      rw [hs'] at h
      simp at h
      rw [renameTbl] at h
      by_cases hc : (lookupT db1 (t ++ "_tmp")).isSome && (lookupT db1 t).isNone
      · simp [hc] at h
      · simp [hc] at h
        exact h.2.symm

/-- The success run of the create/copy/swap protocol under its
preconditions: the shadow table is created empty, filled with the live
table's rows, and swapped in; `safe` decides whether the displaced live
table is archived as `t_initial` or dropped. -/
theorem run_protocol (db : DbState) (t : String) (nf : List String) (safe : Bool)
    (tbl : Table) (hnf : nf ≠ []) (htmp : lookupT db (t ++ "_tmp") = none)
    (hlive : lookupT db t = some tbl)
    (hini : safe = true → lookupT db (t ++ "_initial") = none) :
    create_table db (t ++ "_tmp") nf = ((t ++ "_tmp", Table.mk nf []) :: db, none) ∧
    insertSelect ((t ++ "_tmp", Table.mk nf []) :: db) (t ++ "_tmp") t true
      = ((t ++ "_tmp", Table.mk nf tbl.rows) :: db, none) ∧
    cleanup_tables ((t ++ "_tmp", Table.mk nf tbl.rows) :: db) t safe
      = ((t, Table.mk nf tbl.rows)
          :: (if safe then renameT db t (t ++ "_initial") else removeT db t), none) := by
  refine ⟨create_table_ok db _ nf hnf htmp, ?_, ?_⟩
  · have hd : lookupT ((t ++ "_tmp", Table.mk nf []) :: db) (t ++ "_tmp")
        = some (Table.mk nf []) := by simp [lookupT_cons]
    have hs : lookupT ((t ++ "_tmp", Table.mk nf []) :: db) t = some tbl := by
      rw [lookupT_cons_ne _ _ _ _ (tmp_ne_self t)]; exact hlive
    rw [insertSelect_ok _ _ _ _ _ hd hs]
    rw [setRows_cons]
    simp [setRows_absent db _ _ htmp]
  · rw [cleanup_shape _ _ _ _ htmp]
    cases safe with
    | true => simp [hlive, hini rfl]
    | false => simp [hlive]

/-! ## Closed forms for the three operations on the decisive paths -/

theorem drop_column_run
    (st : SqueakSt) (db : DbState) (c : String) (safe : Bool) (tbl : Table)
    (cols : List String)
    (hx : extractCols st.fields = some cols)
    (hlen : (((st.fields.zip cols).filter (fun p => p.2 ≠ c)).map Prod.fst).length
      ≠ st.fields.length)
    (hnf : ((st.fields.zip cols).filter (fun p => p.2 ≠ c)).map Prod.fst ≠ [])
    (htmp : lookupT db (st.table_name ++ "_tmp") = none)
    (hlive : lookupT db st.table_name = some tbl)
    (hini : safe = true → lookupT db (st.table_name ++ "_initial") = none) :
    drop_column st db c safe true
      = OpOut.mk (.ok (true, "Column '" ++ c ++ "' dropped."))
          ((st.table_name,
              Table.mk (((st.fields.zip cols).filter (fun p => p.2 ≠ c)).map Prod.fst) tbl.rows)
            :: (if safe then renameT db st.table_name (st.table_name ++ "_initial")
                else removeT db st.table_name))
          (SqueakSt.mk st.table_name
            (((st.fields.zip cols).filter (fun p => p.2 ≠ c)).map Prod.fst)) := by
  obtain ⟨h1, h2, h3⟩ := run_protocol db st.table_name
    (((st.fields.zip cols).filter (fun p => p.2 ≠ c)).map Prod.fst) safe tbl hnf htmp hlive hini
  have hlen2 : ¬(List.filter (fun p => !decide (p.2 = c)) (st.fields.zip cols)).length
      = st.fields.length := by simpa using hlen
  simp only [drop_column, dropScan_of_extract c st.fields cols hx, h1, h2, h3]
  simp [hlen2]

theorem drop_column_integrity
    (st : SqueakSt) (db : DbState) (c : String) (safe : Bool) (tbl : Table)
    (cols : List String)
    (hx : extractCols st.fields = some cols)
    (hlen : (((st.fields.zip cols).filter (fun p => p.2 ≠ c)).map Prod.fst).length
      ≠ st.fields.length)
    (hnf : ((st.fields.zip cols).filter (fun p => p.2 ≠ c)).map Prod.fst ≠ [])
    (htmp : lookupT db (st.table_name ++ "_tmp") = none)
    (hlive : lookupT db st.table_name = some tbl) :
    drop_column st db c safe false
      = OpOut.mk (.error .integrityError)
          ((st.table_name ++ "_tmp",
              Table.mk (((st.fields.zip cols).filter (fun p => p.2 ≠ c)).map Prod.fst) [])
            :: db)
          st := by
  have h1 := create_table_ok db (st.table_name ++ "_tmp")
    (((st.fields.zip cols).filter (fun p => p.2 ≠ c)).map Prod.fst) hnf htmp
  have hd : lookupT ((st.table_name ++ "_tmp",
      Table.mk (((st.fields.zip cols).filter (fun p => p.2 ≠ c)).map Prod.fst) []) :: db)
      (st.table_name ++ "_tmp")
      = some (Table.mk (((st.fields.zip cols).filter (fun p => p.2 ≠ c)).map Prod.fst) []) := by
    simp [lookupT_cons]
  have hs : lookupT ((st.table_name ++ "_tmp",
      Table.mk (((st.fields.zip cols).filter (fun p => p.2 ≠ c)).map Prod.fst) []) :: db)
      st.table_name = some tbl := by
    rw [lookupT_cons_ne _ _ _ _ (tmp_ne_self st.table_name)]; exact hlive
  have h2 := insertSelect_fail _ _ _ _ _ hd hs
  have hlen2 : ¬(List.filter (fun p => !decide (p.2 = c)) (st.fields.zip cols)).length
      = st.fields.length := by simpa using hlen
  simp only [drop_column, dropScan_of_extract c st.fields cols hx, h1, h2]
  simp [hlen2]

theorem rename_column_run
    (st : SqueakSt) (db : DbState) (old new : String) (safe : Bool) (tbl : Table)
    (cols : List String)
    (hx : extractCols st.fields = some cols) (hold : old ∈ cols)
    (htmp : lookupT db (st.table_name ++ "_tmp") = none)
    (hlive : lookupT db st.table_name = some tbl)
    (hini : safe = true → lookupT db (st.table_name ++ "_initial") = none) :
    rename_column st db old new safe true
      = OpOut.mk (.ok (true, "Column '" ++ old ++ "' renamed to '" ++ new ++ "'."))
          ((st.table_name,
              Table.mk ((st.fields.zip cols).map
                (fun p => if p.2 = old then renameField p.1 old new else p.1)) tbl.rows)
            :: (if safe then renameT db st.table_name (st.table_name ++ "_initial")
                else removeT db st.table_name))
          (SqueakSt.mk st.table_name
            ((st.fields.zip cols).map
              (fun p => if p.2 = old then renameField p.1 old new else p.1))) := by
  have hclen := extractCols_length _ _ hx
  have hnf : (st.fields.zip cols).map
      (fun p => if p.2 = old then renameField p.1 old new else p.1) ≠ [] := by
    intro hemp
    have hz := congrArg List.length hemp
    simp only [List.length_map, List.length_zip, List.length_nil] at hz
    rw [hclen, Nat.min_self] at hz
    cases cols with
    | nil => simp at hold
    | cons a l => simp at hz
  obtain ⟨h1, h2, h3⟩ := run_protocol db st.table_name
    ((st.fields.zip cols).map (fun p => if p.2 = old then renameField p.1 old new else p.1))
    safe tbl hnf htmp hlive hini
  simp only [rename_column, renameScan_of_extract old new st.fields cols hx, h1, h2, h3]
  simp [hold]

theorem rename_column_integrity
    (st : SqueakSt) (db : DbState) (old new : String) (safe : Bool) (tbl : Table)
    (cols : List String)
    (hx : extractCols st.fields = some cols) (hold : old ∈ cols)
    (htmp : lookupT db (st.table_name ++ "_tmp") = none)
    (hlive : lookupT db st.table_name = some tbl) :
    rename_column st db old new safe false
      = OpOut.mk (.error .integrityError)
          ((st.table_name ++ "_tmp",
              Table.mk ((st.fields.zip cols).map
                (fun p => if p.2 = old then renameField p.1 old new else p.1)) [])
            :: db)
          st := by
  have hclen := extractCols_length _ _ hx
  have hnf : (st.fields.zip cols).map
      (fun p => if p.2 = old then renameField p.1 old new else p.1) ≠ [] := by
    intro hemp
    have hz := congrArg List.length hemp
    simp only [List.length_map, List.length_zip, List.length_nil] at hz
    rw [hclen, Nat.min_self] at hz
    cases cols with
    | nil => simp at hold
    | cons a l => simp at hz
  have h1 := create_table_ok db (st.table_name ++ "_tmp") _ hnf htmp
  have hd : lookupT ((st.table_name ++ "_tmp",
      Table.mk ((st.fields.zip cols).map
        (fun p => if p.2 = old then renameField p.1 old new else p.1)) []) :: db)
      (st.table_name ++ "_tmp")
      = some (Table.mk ((st.fields.zip cols).map
          (fun p => if p.2 = old then renameField p.1 old new else p.1)) []) := by
    simp [lookupT_cons]
  have hs : lookupT ((st.table_name ++ "_tmp",
      Table.mk ((st.fields.zip cols).map
        (fun p => if p.2 = old then renameField p.1 old new else p.1)) []) :: db)
      st.table_name = some tbl := by
    rw [lookupT_cons_ne _ _ _ _ (tmp_ne_self st.table_name)]; exact hlive
  have h2 := insertSelect_fail _ _ _ _ _ hd hs
  simp only [rename_column, renameScan_of_extract old new st.fields cols hx, h1, h2]
  simp [hold]

theorem replace_definition_run
    (st : SqueakSt) (db : DbState) (c d : String) (safe : Bool) (tbl : Table)
    (fs' : List String)
    (hsc : replaceScanF c d st.fields = some (true, fs')) (hnf : fs' ≠ [])
    (htmp : lookupT db (st.table_name ++ "_tmp") = none)
    (hlive : lookupT db st.table_name = some tbl)
    (hini : safe = true → lookupT db (st.table_name ++ "_initial") = none) :
    replace_definition st db c d safe true
      = OpOut.mk (.ok (true, "Changed the definition for column " ++ c ++ " to: " ++ d))
          ((st.table_name, Table.mk fs' tbl.rows)
            :: (if safe then renameT db st.table_name (st.table_name ++ "_initial")
                else removeT db st.table_name))
          (SqueakSt.mk st.table_name fs') := by
  obtain ⟨h1, h2, h3⟩ := run_protocol db st.table_name fs' safe tbl hnf htmp hlive hini
  simp only [replace_definition, hsc, h1, h2, h3]
  simp

theorem replace_definition_integrity
    (st : SqueakSt) (db : DbState) (c d : String) (safe : Bool) (tbl : Table)
    (fs' : List String)
    (hsc : replaceScanF c d st.fields = some (true, fs')) (hnf : fs' ≠ [])
    (htmp : lookupT db (st.table_name ++ "_tmp") = none)
    (hlive : lookupT db st.table_name = some tbl) :
    replace_definition st db c d safe false
      = OpOut.mk (.ok (false, integrityMsg)) db st := by
  have h1 := create_table_ok db (st.table_name ++ "_tmp") fs' hnf htmp
  have hd : lookupT ((st.table_name ++ "_tmp", Table.mk fs' []) :: db)
      (st.table_name ++ "_tmp") = some (Table.mk fs' []) := by
    simp [lookupT_cons]
  have hs : lookupT ((st.table_name ++ "_tmp", Table.mk fs' []) :: db)
      st.table_name = some tbl := by
    rw [lookupT_cons_ne _ _ _ _ (tmp_ne_self st.table_name)]; exact hlive
  have h2 := insertSelect_fail _ _ _ _ _ hd hs
  have h3 : dropTbl ((st.table_name ++ "_tmp", Table.mk fs' []) :: db)
      (st.table_name ++ "_tmp") = (db, none) := by
    rw [dropTbl]
    simp [hd, removeT_cons, removeT_absent db _ htmp]
  simp only [replace_definition, hsc, h1, h2, h3]
  simp

/-! ## A complete case analysis of each operation's outcome

`ProtocolPost` is what a fully successful call leaves behind; `OpCases` is
the disjunction of the four kinds of outcome an operation can have: a crash
of the column-name extraction, a `(false, message)` return with nothing
touched, a database-level exception that leaves the live table's entry
unchanged and the instance state untouched, or full success. -/

def ProtocolPost (db : DbState) (st : SqueakSt) (safe : Bool) (r : OpOut) : Prop :=
  ∃ nf s m, r.result = Except.ok (true, m) ∧ r.st = SqueakSt.mk st.table_name nf ∧
    lookupT db (st.table_name ++ "_tmp") = none ∧
    lookupT r.db (st.table_name ++ "_tmp") = none ∧
    lookupT db st.table_name = some s ∧
    lookupT r.db st.table_name = some (Table.mk nf s.rows) ∧
    (safe = true → lookupT r.db (st.table_name ++ "_initial") = some s ∧
      lookupT db (st.table_name ++ "_initial") = none) ∧
    (safe = false → lookupT r.db (st.table_name ++ "_initial")
      = lookupT db (st.table_name ++ "_initial"))

def OpCases (db : DbState) (st : SqueakSt) (safe : Bool) (scanExc : PyExc)
    (scanOk : Prop) (r : OpOut) : Prop :=
  (r.result = .error scanExc ∧ r.db = db ∧ r.st = st ∧ ¬ scanOk) ∨
  (∃ m, r.result = .ok (false, m) ∧ r.db = db ∧ r.st = st) ∨
  (∃ e, r.result = .error e ∧ (e = .operationalError ∨ e = .integrityError) ∧
    r.st = st ∧ lookupT r.db st.table_name = lookupT db st.table_name) ∨
  ProtocolPost db st safe r

theorem drop_column_cases (st : SqueakSt) (db : DbState) (c : String) (safe ok : Bool) :
    OpCases db st safe .attributeError (dropScan c st.fields ≠ none)
      (drop_column st db c safe ok) := by
  rcases hsc : dropScan c st.fields with _ | ⟨cs, nf⟩
  · have hr : drop_column st db c safe ok = OpOut.mk (.error .attributeError) db st := by
      simp only [drop_column, hsc]
    rw [hr]
    exact Or.inl ⟨rfl, rfl, rfl, by simp [hsc]⟩
  · by_cases hlen : nf.length = st.fields.length
    · have hr : drop_column st db c safe ok
          = OpOut.mk (.ok (false, "No such column: '" ++ c ++ "'")) db st := by
        simp only [drop_column, hsc]
        simp [hlen]
      rw [hr]
      exact Or.inr (Or.inl ⟨_, rfl, rfl, rfl⟩)
    · rcases hc : create_table db (st.table_name ++ "_tmp") nf with ⟨db1, oe⟩
      cases oe with
      | some e =>
        obtain ⟨hdb1, he⟩ := create_table_err_inv _ _ _ _ _ hc
        have hr : drop_column st db c safe ok = OpOut.mk (.error e) db1 st := by
          simp only [drop_column, hsc, hc]
          simp [hlen]
        rw [hr, hdb1]
        exact Or.inr (Or.inr (Or.inl ⟨e, rfl, Or.inl he, rfl, rfl⟩))
      | none =>
        obtain ⟨hnf, htmp, hdb1⟩ := create_table_ok_inv _ _ _ _ hc
        subst hdb1
        rcases hi : insertSelect ((st.table_name ++ "_tmp", Table.mk nf []) :: db)
            (st.table_name ++ "_tmp") st.table_name ok with ⟨db2, oe2⟩
        cases oe2 with
        | some e =>
          obtain ⟨hdb2, he⟩ := insertSelect_err_inv _ _ _ _ _ _ hi
          subst hdb2
          have hr : drop_column st db c safe ok
              = OpOut.mk (.error e) ((st.table_name ++ "_tmp", Table.mk nf []) :: db) st := by
            simp only [drop_column, hsc, hc, hi]
            simp [hlen]
          rw [hr]
          refine Or.inr (Or.inr (Or.inl ⟨e, rfl, he, rfl, ?_⟩))
          exact lookupT_cons_ne _ _ _ _ (tmp_ne_self _)
        | none =>
          obtain ⟨d, s, hd, hs2, hok, hdb2⟩ := insertSelect_ok_inv _ _ _ _ _ hi
          subst hok
          have hdval : d = Table.mk nf [] := by
            rw [lookupT_cons] at hd
            simp at hd
            exact hd.symm
          subst hdval
          have hs3 : lookupT db st.table_name = some s := by
            rw [lookupT_cons_ne _ _ _ _ (tmp_ne_self _)] at hs2
            exact hs2
          have hdb2' : db2 = (st.table_name ++ "_tmp", Table.mk nf s.rows) :: db := by
            rw [hdb2, setRows_cons]
            simp [setRows_absent db _ _ htmp]
          subst hdb2'
          rcases hcl : cleanup_tables ((st.table_name ++ "_tmp", Table.mk nf s.rows) :: db)
              st.table_name safe with ⟨db3, oe3⟩
          have hcl2 := hcl
          rw [cleanup_shape _ _ _ _ htmp] at hcl2
          cases safe with
          | true =>
            by_cases hcond : lookupT db st.table_name ≠ none ∧
                lookupT db (st.table_name ++ "_initial") = none
            · rw [if_pos rfl, if_pos hcond] at hcl2
              cases hcl2
              have hr : drop_column st db c true true
                  = OpOut.mk (.ok (true, "Column '" ++ c ++ "' dropped."))
                      ((st.table_name, Table.mk nf s.rows)
                        :: renameT db st.table_name (st.table_name ++ "_initial"))
                      (SqueakSt.mk st.table_name nf) := by
                simp only [drop_column, hsc, hc, hi, hcl]
                simp [hlen]
              rw [hr]
              refine Or.inr (Or.inr (Or.inr ⟨nf, s, _, rfl, rfl, htmp, ?_, hs3, ?_, ?_, ?_⟩))
              · rw [lookupT_cons_ne _ _ _ _ (fun h => tmp_ne_self st.table_name h.symm)]
                rw [lookup_rename_other db _ _ _ (tmp_ne_self _) (tmp_ne_ini _)]
                exact htmp
              · simp [lookupT_cons]
              · intro _
                constructor
                · rw [lookupT_cons_ne _ _ _ _ (fun h => ini_ne_self st.table_name h.symm)]
                  rw [lookup_rename_target db _ _ hcond.2]
                  exact hs3
                · exact hcond.2
              · intro hfalse
                exact absurd hfalse (by simp)
            · rw [if_pos rfl, if_neg hcond] at hcl2
              cases hcl2
              have hr : drop_column st db c true true
                  = OpOut.mk (.error .operationalError)
                      ((st.table_name ++ "_tmp", Table.mk nf s.rows) :: db) st := by
                simp only [drop_column, hsc, hc, hi, hcl]
                simp [hlen]
              rw [hr]
              refine Or.inr (Or.inr (Or.inl ⟨_, rfl, Or.inl rfl, rfl, ?_⟩))
              exact lookupT_cons_ne _ _ _ _ (tmp_ne_self _)
          | false =>
            by_cases hcond : lookupT db st.table_name ≠ none
            · rw [if_neg (by simp), if_pos hcond] at hcl2
              cases hcl2
              have hr : drop_column st db c false true
                  = OpOut.mk (.ok (true, "Column '" ++ c ++ "' dropped."))
                      ((st.table_name, Table.mk nf s.rows) :: removeT db st.table_name)
                      (SqueakSt.mk st.table_name nf) := by
                simp only [drop_column, hsc, hc, hi, hcl]
                simp [hlen]
              rw [hr]
              refine Or.inr (Or.inr (Or.inr ⟨nf, s, _, rfl, rfl, htmp, ?_, hs3, ?_, ?_, ?_⟩))
              · rw [lookupT_cons_ne _ _ _ _ (fun h => tmp_ne_self st.table_name h.symm)]
                rw [lookup_remove_other db _ _ (tmp_ne_self _)]
                exact htmp
              · simp [lookupT_cons]
              · intro htrue
                exact absurd htrue (by simp)
              · intro _
                rw [lookupT_cons_ne _ _ _ _ (fun h => ini_ne_self st.table_name h.symm)]
                exact lookup_remove_other db _ _ (ini_ne_self _)
            · rw [if_neg (by simp), if_neg hcond] at hcl2
              cases hcl2
              have hr : drop_column st db c false true
                  = OpOut.mk (.error .operationalError)
                      ((st.table_name ++ "_tmp", Table.mk nf s.rows) :: db) st := by
                simp only [drop_column, hsc, hc, hi, hcl]
                simp [hlen]
              rw [hr]
              refine Or.inr (Or.inr (Or.inl ⟨_, rfl, Or.inl rfl, rfl, ?_⟩))
              exact lookupT_cons_ne _ _ _ _ (tmp_ne_self _)

theorem rename_column_cases (st : SqueakSt) (db : DbState) (old new : String)
    (safe ok : Bool) :
    OpCases db st safe .attributeError (renameScan old new st.fields ≠ none)
      (rename_column st db old new safe ok) := by
  rcases hsc : renameScan old new st.fields with _ | ⟨found, nf⟩
  · have hr : rename_column st db old new safe ok
        = OpOut.mk (.error .attributeError) db st := by
      simp only [rename_column, hsc]
    rw [hr]
    exact Or.inl ⟨rfl, rfl, rfl, by simp [hsc]⟩
  · cases found with
    | false =>
      have hr : rename_column st db old new safe ok
          = OpOut.mk (.ok (false, "No such column: '" ++ old ++ "'")) db st := by
        simp only [rename_column, hsc]
        simp
      rw [hr]
      exact Or.inr (Or.inl ⟨_, rfl, rfl, rfl⟩)
    | true =>
      rcases hc : create_table db (st.table_name ++ "_tmp") nf with ⟨db1, oe⟩
      cases oe with
      | some e =>
        obtain ⟨hdb1, he⟩ := create_table_err_inv _ _ _ _ _ hc
        have hr : rename_column st db old new safe ok = OpOut.mk (.error e) db1 st := by
          simp only [rename_column, hsc, hc]
          simp
        rw [hr, hdb1]
        exact Or.inr (Or.inr (Or.inl ⟨e, rfl, Or.inl he, rfl, rfl⟩))
      | none =>
        obtain ⟨hnf, htmp, hdb1⟩ := create_table_ok_inv _ _ _ _ hc
        subst hdb1
        rcases hi : insertSelect ((st.table_name ++ "_tmp", Table.mk nf []) :: db)
            (st.table_name ++ "_tmp") st.table_name ok with ⟨db2, oe2⟩
        cases oe2 with
        | some e =>
          obtain ⟨hdb2, he⟩ := insertSelect_err_inv _ _ _ _ _ _ hi
          subst hdb2
          have hr : rename_column st db old new safe ok
              = OpOut.mk (.error e) ((st.table_name ++ "_tmp", Table.mk nf []) :: db) st := by
            simp only [rename_column, hsc, hc, hi]
            simp
          rw [hr]
          refine Or.inr (Or.inr (Or.inl ⟨e, rfl, he, rfl, ?_⟩))
          exact lookupT_cons_ne _ _ _ _ (tmp_ne_self _)
        | none =>
          obtain ⟨d, s, hd, hs2, hok, hdb2⟩ := insertSelect_ok_inv _ _ _ _ _ hi
          subst hok
          have hdval : d = Table.mk nf [] := by
            rw [lookupT_cons] at hd
            simp at hd
            exact hd.symm
          subst hdval
          have hs3 : lookupT db st.table_name = some s := by
            rw [lookupT_cons_ne _ _ _ _ (tmp_ne_self _)] at hs2
            exact hs2
          have hdb2' : db2 = (st.table_name ++ "_tmp", Table.mk nf s.rows) :: db := by
            rw [hdb2, setRows_cons]
            simp [setRows_absent db _ _ htmp]
          subst hdb2'
          rcases hcl : cleanup_tables ((st.table_name ++ "_tmp", Table.mk nf s.rows) :: db)
              st.table_name safe with ⟨db3, oe3⟩
          have hcl2 := hcl
          rw [cleanup_shape _ _ _ _ htmp] at hcl2
          cases safe with
          | true =>
            by_cases hcond : lookupT db st.table_name ≠ none ∧
                lookupT db (st.table_name ++ "_initial") = none
            · rw [if_pos rfl, if_pos hcond] at hcl2
              cases hcl2
              have hr : rename_column st db old new true true
                  = OpOut.mk
                      (.ok (true, "Column '" ++ old ++ "' renamed to '" ++ new ++ "'."))
                      ((st.table_name, Table.mk nf s.rows)
                        :: renameT db st.table_name (st.table_name ++ "_initial"))
                      (SqueakSt.mk st.table_name nf) := by
                simp only [rename_column, hsc, hc, hi, hcl]
                simp
              rw [hr]
              refine Or.inr (Or.inr (Or.inr ⟨nf, s, _, rfl, rfl, htmp, ?_, hs3, ?_, ?_, ?_⟩))
              · rw [lookupT_cons_ne _ _ _ _ (fun h => tmp_ne_self st.table_name h.symm)]
                rw [lookup_rename_other db _ _ _ (tmp_ne_self _) (tmp_ne_ini _)]
                exact htmp
              · simp [lookupT_cons]
              · intro _
                constructor
                · rw [lookupT_cons_ne _ _ _ _ (fun h => ini_ne_self st.table_name h.symm)]
                  rw [lookup_rename_target db _ _ hcond.2]
                  exact hs3
                · exact hcond.2
              · intro hfalse
                exact absurd hfalse (by simp)
            · rw [if_pos rfl, if_neg hcond] at hcl2
              cases hcl2
              have hr : rename_column st db old new true true
                  = OpOut.mk (.error .operationalError)
                      ((st.table_name ++ "_tmp", Table.mk nf s.rows) :: db) st := by
                simp only [rename_column, hsc, hc, hi, hcl]
                simp
              rw [hr]
              refine Or.inr (Or.inr (Or.inl ⟨_, rfl, Or.inl rfl, rfl, ?_⟩))
              exact lookupT_cons_ne _ _ _ _ (tmp_ne_self _)
          | false =>
            by_cases hcond : lookupT db st.table_name ≠ none
            · rw [if_neg (by simp), if_pos hcond] at hcl2
              cases hcl2
              have hr : rename_column st db old new false true
                  = OpOut.mk
                      (.ok (true, "Column '" ++ old ++ "' renamed to '" ++ new ++ "'."))
                      ((st.table_name, Table.mk nf s.rows) :: removeT db st.table_name)
                      (SqueakSt.mk st.table_name nf) := by
                simp only [rename_column, hsc, hc, hi, hcl]
                simp
              rw [hr]
              refine Or.inr (Or.inr (Or.inr ⟨nf, s, _, rfl, rfl, htmp, ?_, hs3, ?_, ?_, ?_⟩))
              · rw [lookupT_cons_ne _ _ _ _ (fun h => tmp_ne_self st.table_name h.symm)]
                rw [lookup_remove_other db _ _ (tmp_ne_self _)]
                exact htmp
              · simp [lookupT_cons]
              · intro htrue
                exact absurd htrue (by simp)
              · intro _
                rw [lookupT_cons_ne _ _ _ _ (fun h => ini_ne_self st.table_name h.symm)]
                exact lookup_remove_other db _ _ (ini_ne_self _)
            · rw [if_neg (by simp), if_neg hcond] at hcl2
              cases hcl2
              have hr : rename_column st db old new false true
                  = OpOut.mk (.error .operationalError)
                      ((st.table_name ++ "_tmp", Table.mk nf s.rows) :: db) st := by
                simp only [rename_column, hsc, hc, hi, hcl]
                simp
              rw [hr]
              refine Or.inr (Or.inr (Or.inl ⟨_, rfl, Or.inl rfl, rfl, ?_⟩))
              exact lookupT_cons_ne _ _ _ _ (tmp_ne_self _)

theorem replace_definition_cases (st : SqueakSt) (db : DbState) (c d : String)
    (safe ok : Bool) :
    OpCases db st safe .indexError (replaceScanF c d st.fields ≠ none)
      (replace_definition st db c d safe ok) := by
  rcases hsc : replaceScanF c d st.fields with _ | ⟨found, nf⟩
  · have hr : replace_definition st db c d safe ok
        = OpOut.mk (.error .indexError) db st := by
      simp only [replace_definition, hsc]
    rw [hr]
    exact Or.inl ⟨rfl, rfl, rfl, by simp [hsc]⟩
  · cases found with
    | false =>
      have hr : replace_definition st db c d safe ok
          = OpOut.mk (.ok (false, "No such column: " ++ c)) db st := by
        simp only [replace_definition, hsc]
        simp
      rw [hr]
      exact Or.inr (Or.inl ⟨_, rfl, rfl, rfl⟩)
    | true =>
      rcases hc : create_table db (st.table_name ++ "_tmp") nf with ⟨db1, oe⟩
      cases oe with
      | some e =>
        obtain ⟨hdb1, he⟩ := create_table_err_inv _ _ _ _ _ hc
        have hr : replace_definition st db c d safe ok = OpOut.mk (.error e) db1 st := by
          subst he
          simp only [replace_definition, hsc, hc]
          simp
        rw [hr, hdb1]
        exact Or.inr (Or.inr (Or.inl ⟨e, rfl, Or.inl he, rfl, rfl⟩))
      | none =>
        obtain ⟨hnf, htmp, hdb1⟩ := create_table_ok_inv _ _ _ _ hc
        subst hdb1
        rcases hi : insertSelect ((st.table_name ++ "_tmp", Table.mk nf []) :: db)
            (st.table_name ++ "_tmp") st.table_name ok with ⟨db2, oe2⟩
        cases oe2 with
        | some e =>
          obtain ⟨hdb2, he⟩ := insertSelect_err_inv _ _ _ _ _ _ hi
          subst hdb2
          rcases he with he | he <;> subst he
          · have hr : replace_definition st db c d safe ok
                = OpOut.mk (.error .operationalError)
                    ((st.table_name ++ "_tmp", Table.mk nf []) :: db) st := by
              simp only [replace_definition, hsc, hc, hi]
              simp
            rw [hr]
            refine Or.inr (Or.inr (Or.inl ⟨_, rfl, Or.inl rfl, rfl, ?_⟩))
            exact lookupT_cons_ne _ _ _ _ (tmp_ne_self _)
          · -- the handled IntegrityError path: drop the shadow table, return the
            -- failure pair
            have hdrop : dropTbl ((st.table_name ++ "_tmp", Table.mk nf []) :: db)
                (st.table_name ++ "_tmp") = (db, none) := by
              rw [dropTbl]
              simp [lookupT_cons, removeT_cons, removeT_absent db _ htmp]
            have hr : replace_definition st db c d safe ok
                = OpOut.mk (.ok (false, integrityMsg)) db st := by
              simp only [replace_definition, hsc, hc, hi, hdrop]
              simp
            rw [hr]
            exact Or.inr (Or.inl ⟨_, rfl, rfl, rfl⟩)
        | none =>
          obtain ⟨d2, s, hd, hs2, hok, hdb2⟩ := insertSelect_ok_inv _ _ _ _ _ hi
          subst hok
          have hdval : d2 = Table.mk nf [] := by
            rw [lookupT_cons] at hd
            simp at hd
            exact hd.symm
          subst hdval
          have hs3 : lookupT db st.table_name = some s := by
            rw [lookupT_cons_ne _ _ _ _ (tmp_ne_self _)] at hs2
            exact hs2
          have hdb2' : db2 = (st.table_name ++ "_tmp", Table.mk nf s.rows) :: db := by
            rw [hdb2, setRows_cons]
            simp [setRows_absent db _ _ htmp]
          subst hdb2'
          rcases hcl : cleanup_tables ((st.table_name ++ "_tmp", Table.mk nf s.rows) :: db)
              st.table_name safe with ⟨db3, oe3⟩
          have hcl2 := hcl
          rw [cleanup_shape _ _ _ _ htmp] at hcl2
          cases safe with
          | true =>
            by_cases hcond : lookupT db st.table_name ≠ none ∧
                lookupT db (st.table_name ++ "_initial") = none
            · rw [if_pos rfl, if_pos hcond] at hcl2
              cases hcl2
              have hr : replace_definition st db c d true true
                  = OpOut.mk
                      (.ok (true, "Changed the definition for column " ++ c ++ " to: " ++ d))
                      ((st.table_name, Table.mk nf s.rows)
                        :: renameT db st.table_name (st.table_name ++ "_initial"))
                      (SqueakSt.mk st.table_name nf) := by
                simp only [replace_definition, hsc, hc, hi, hcl]
                simp
              rw [hr]
              refine Or.inr (Or.inr (Or.inr ⟨nf, s, _, rfl, rfl, htmp, ?_, hs3, ?_, ?_, ?_⟩))
              · rw [lookupT_cons_ne _ _ _ _ (fun h => tmp_ne_self st.table_name h.symm)]
                rw [lookup_rename_other db _ _ _ (tmp_ne_self _) (tmp_ne_ini _)]
                exact htmp
              · simp [lookupT_cons]
              · intro _
                constructor
                · rw [lookupT_cons_ne _ _ _ _ (fun h => ini_ne_self st.table_name h.symm)]
                  rw [lookup_rename_target db _ _ hcond.2]
                  exact hs3
                · exact hcond.2
              · intro hfalse
                exact absurd hfalse (by simp)
            · rw [if_pos rfl, if_neg hcond] at hcl2
              cases hcl2
              have hr : replace_definition st db c d true true
                  = OpOut.mk (.error .operationalError)
                      ((st.table_name ++ "_tmp", Table.mk nf s.rows) :: db) st := by
                simp only [replace_definition, hsc, hc, hi, hcl]
                simp
              rw [hr]
              refine Or.inr (Or.inr (Or.inl ⟨_, rfl, Or.inl rfl, rfl, ?_⟩))
              exact lookupT_cons_ne _ _ _ _ (tmp_ne_self _)
          | false =>
            by_cases hcond : lookupT db st.table_name ≠ none
            · rw [if_neg (by simp), if_pos hcond] at hcl2
              cases hcl2
              have hr : replace_definition st db c d false true
                  = OpOut.mk
                      (.ok (true, "Changed the definition for column " ++ c ++ " to: " ++ d))
                      ((st.table_name, Table.mk nf s.rows) :: removeT db st.table_name)
                      (SqueakSt.mk st.table_name nf) := by
                simp only [replace_definition, hsc, hc, hi, hcl]
                simp
              rw [hr]
              refine Or.inr (Or.inr (Or.inr ⟨nf, s, _, rfl, rfl, htmp, ?_, hs3, ?_, ?_, ?_⟩))
              · rw [lookupT_cons_ne _ _ _ _ (fun h => tmp_ne_self st.table_name h.symm)]
                rw [lookup_remove_other db _ _ (tmp_ne_self _)]
                exact htmp
              · simp [lookupT_cons]
              · intro htrue
                exact absurd htrue (by simp)
              · intro _
                rw [lookupT_cons_ne _ _ _ _ (fun h => ini_ne_self st.table_name h.symm)]
                exact lookup_remove_other db _ _ (ini_ne_self _)
            · rw [if_neg (by simp), if_neg hcond] at hcl2
              cases hcl2
              have hr : replace_definition st db c d false true
                  = OpOut.mk (.error .operationalError)
                      ((st.table_name ++ "_tmp", Table.mk nf s.rows) :: db) st := by
                simp only [replace_definition, hsc, hc, hi, hcl]
                simp
              rw [hr]
              refine Or.inr (Or.inr (Or.inl ⟨_, rfl, Or.inl rfl, rfl, ?_⟩))
              exact lookupT_cons_ne _ _ _ _ (tmp_ne_self _)

/-! ## Concrete evaluations settling the claims that fail on the code -/

/-- C2: at a creation statement whose trailing FOREIGN KEY fragment holds two
parenthesized spans, the Field Splitter does not carry the fragment through
unmodified: `re.sub('#__#', matches.pop(0), field)` substitutes every
placeholder of the fragment with the single first-popped span, so the
referenced column list `("id")` comes back as `("table")`. -/
theorem C2_fields_restore_divergence :
    get_fields_from_sql
        ("CREATE TABLE \"my_seat\" (\n    \"id\" integer NOT NULL PRIMARY KEY,\n    \"table\" integer NOT NULL,\n    FOREIGN KEY (\"table\") REFERENCES \"my_table\" (\"id\")\n);")
      = some ["\"id\" integer NOT NULL PRIMARY KEY", "\"table\" integer NOT NULL",
          "FOREIGN KEY (\"table\") REFERENCES \"my_table\" (\"table\")"] ∧
    get_fields_from_sql
        ("CREATE TABLE \"my_seat\" (\n    \"id\" integer NOT NULL PRIMARY KEY,\n    \"table\" integer NOT NULL,\n    FOREIGN KEY (\"table\") REFERENCES \"my_table\" (\"id\")\n);")
      ≠ some ["\"id\" integer NOT NULL PRIMARY KEY", "\"table\" integer NOT NULL",
          "FOREIGN KEY (\"table\") REFERENCES \"my_table\" (\"id\")"] := by
  constructor
  · rfl
  · decide

/-- C1 fails as stated: on an integrity violation during the copy,
`drop_column` has no handler — the IntegrityError propagates as a raised
exception instead of a `(false, message)` return, and the `t_tmp` shadow
table is left behind rather than dropped. -/
theorem C1_counterexample :
    (drop_column (SqueakSt.mk "t" ["\"a\" int", "\"b\" int"])
        [("t", Table.mk ["\"a\" int", "\"b\" int"] [])] "a" false false).result
      = .error .integrityError ∧
    lookupT (drop_column (SqueakSt.mk "t" ["\"a\" int", "\"b\" int"])
        [("t", Table.mk ["\"a\" int", "\"b\" int"] [])] "a" false false).db "t_tmp"
      ≠ none := by
  decide

/-- C3 fails as stated: with a field list holding a fragment whose start
matches no column identifier (SQLite's bracket quoting), `drop_column` on an
absent column raises AttributeError instead of returning `(false, message)`. -/
theorem C3_counterexample :
    (drop_column (SqueakSt.mk "t" ["[x] integer"])
        [("t", Table.mk ["[x] integer"] [])] "y" false true).result
      = .error .attributeError := by
  decide

/-- C4 fails as stated: when two fields share the leading identifier `a`,
`drop_column "a"` removes both, so the new length is the old length minus
two, not minus one. -/
theorem C4_counterexample :
    (drop_column (SqueakSt.mk "t" ["\"a\" int", "\"a\" text", "\"b\" int"])
        [("t", Table.mk ["\"a\" int", "\"a\" text", "\"b\" int"] [])] "a" false true).result
      = .ok (true, "Column 'a' dropped.") ∧
    (drop_column (SqueakSt.mk "t" ["\"a\" int", "\"a\" text", "\"b\" int"])
        [("t", Table.mk ["\"a\" int", "\"a\" text", "\"b\" int"] [])] "a" false true).st.fields
      = ["\"b\" int"] ∧
    (drop_column (SqueakSt.mk "t" ["\"a\" int", "\"a\" text", "\"b\" int"])
        [("t", Table.mk ["\"a\" int", "\"a\" text", "\"b\" int"] [])] "a" false true).st.fields.length
      ≠ 3 - 1 := by
  decide

/-- C5 fails as stated: the rewrite loop has no break, so with two fields
whose leading identifier equals `old_name` BOTH are rewritten, not only the
first. -/
theorem C5_counterexample :
    (rename_column (SqueakSt.mk "t" ["\"a\" int", "\"a\" text"])
        [("t", Table.mk ["\"a\" int", "\"a\" text"] [])] "a" "b" false true).st.fields
      = ["\"b\" int", "\"b\" text"] ∧
    (rename_column (SqueakSt.mk "t" ["\"a\" int", "\"a\" text"])
        [("t", Table.mk ["\"a\" int", "\"a\" text"] [])] "a" "b" false true).st.fields
      ≠ ["\"b\" int", "\"a\" text"] := by
  decide

/-- C6 fails as stated: a catalog row with no usable creation SQL does not
raise the not-found fault — subscripting the row succeeds, the `except
(IndexError, TypeError)` handler is skipped, and the parse of `None` raises
AttributeError instead. -/
theorem C6_counterexample :
    squeakInit (some none) "x" = .error .attributeError ∧
    squeakInit (some none) "x" ≠ .error (.squeakError "No such table: 'x'") := by
  decide

/-- C7 fails as stated: a fragment whose start matches no column-identifier
pattern (bracket quoting) makes `rename_column` raise AttributeError rather
than return a (success, message) pair. -/
theorem C7_counterexample :
    (rename_column (SqueakSt.mk "t" ["[q] text"])
        [("t", Table.mk ["[q] text"] [])] "q" "r" false true).result
      = .error .attributeError := by
  decide

/-- C10 fails as stated: both fields match an optionally quoted identifier,
whitespace and a non-empty tail, yet the transformation is not idempotent —
the single trailing-comma trim shortens the unmatched field's tail `y,,` to
`y,` on the first pass and to `y` on the second. -/
theorem C10_counterexample :
    findallFirst "\"b\" y,," = some ("b", "y,,") ∧
    replaceScanF "a" "z" ["\"a\" x", "\"b\" y,,"] = some (true, ["\"a\" z", "\"b\" y,"]) ∧
    replaceScanF "a" "z" ["\"a\" z", "\"b\" y,"] = some (true, ["\"a\" z", "\"b\" y"]) ∧
    (["\"a\" z", "\"b\" y,"] : List String) ≠ ["\"a\" z", "\"b\" y"] := by
  decide

/-! ## Counting lemmas for the drop arithmetic -/

theorem length_filter_split {α : Type} (l : List α) (p : α → Bool) :
    (l.filter p).length + (l.filter (fun a => !p a)).length = l.length := by
  induction l with
  | nil => rfl
  | cons a l ih =>
    by_cases hp : p a <;> simp [List.filter_cons, hp] <;> omega

theorem zip_filter_pos (fields cols : List String) (c : String)
    (hlen : fields.length = cols.length) (hc : c ∈ cols) :
    0 < ((fields.zip cols).filter (fun p => p.2 = c)).length := by
  induction fields generalizing cols with
  | nil =>
    cases cols with
    | nil => simp at hc
    | cons a l => simp at hlen
  | cons f fs ih =>
    cases cols with
    | nil => simp at hc
    | cons a l =>
      simp at hlen
      rcases List.mem_cons.mp hc with h | h
      · subst h
        simp [List.filter_cons]
      · by_cases ha : a = c
        · simp [List.filter_cons, ha]
        · simp only [List.zip_cons_cons, List.filter_cons]
          simp only [ha, decide_eq_false, if_false]
          exact ih l hlen h

/-! ## The claims settled by amended theorems -/

/-- C1 (amended): only `replace_definition` guards the copy — there an
integrity violation drops the shadow table, returns `(false, message)`, and
restores the database exactly.  `drop_column` and `rename_column` have no
handler: the IntegrityError propagates as a raised exception and the
committed `_tmp` shadow table is left behind.  In all three operations the
live table's entry is unmodified. -/
theorem C1_amended :
    (∀ (st : SqueakSt) (db : DbState) (c d : String) (safe : Bool) (tbl : Table)
        (fs' : List String),
      replaceScanF c d st.fields = some (true, fs') → fs' ≠ [] →
      lookupT db (st.table_name ++ "_tmp") = none →
      lookupT db st.table_name = some tbl →
      replace_definition st db c d safe false
        = OpOut.mk (.ok (false, integrityMsg)) db st) ∧
    (∀ (st : SqueakSt) (db : DbState) (c : String) (safe : Bool) (tbl : Table)
        (cols : List String),
      extractCols st.fields = some cols →
      (((st.fields.zip cols).filter (fun p => p.2 ≠ c)).map Prod.fst).length
        ≠ st.fields.length →
      ((st.fields.zip cols).filter (fun p => p.2 ≠ c)).map Prod.fst ≠ [] →
      lookupT db (st.table_name ++ "_tmp") = none →
      lookupT db st.table_name = some tbl →
      (drop_column st db c safe false).result = .error .integrityError ∧
      lookupT (drop_column st db c safe false).db (st.table_name ++ "_tmp") ≠ none ∧
      lookupT (drop_column st db c safe false).db st.table_name = some tbl ∧
      (drop_column st db c safe false).st = st) ∧
    (∀ (st : SqueakSt) (db : DbState) (old new : String) (safe : Bool) (tbl : Table)
        (cols : List String),
      extractCols st.fields = some cols → old ∈ cols →
      lookupT db (st.table_name ++ "_tmp") = none →
      lookupT db st.table_name = some tbl →
      (rename_column st db old new safe false).result = .error .integrityError ∧
      lookupT (rename_column st db old new safe false).db (st.table_name ++ "_tmp") ≠ none ∧
      lookupT (rename_column st db old new safe false).db st.table_name = some tbl ∧
      (rename_column st db old new safe false).st = st) := by
  refine ⟨?_, ?_, ?_⟩
  · intro st db c d safe tbl fs' hsc hnf htmp hlive
    exact replace_definition_integrity st db c d safe tbl fs' hsc hnf htmp hlive
  · intro st db c safe tbl cols hx hlen hnf htmp hlive
    rw [drop_column_integrity st db c safe tbl cols hx hlen hnf htmp hlive]
    refine ⟨rfl, ?_, ?_, rfl⟩
    · simp [lookupT_cons]
    · rw [lookupT_cons_ne _ _ _ _ (fun h => tmp_ne_self st.table_name h)]
      exact hlive
  · intro st db old new safe tbl cols hx hold htmp hlive
    rw [rename_column_integrity st db old new safe tbl cols hx hold htmp hlive]
    refine ⟨rfl, ?_, ?_, rfl⟩
    · simp [lookupT_cons]
    · rw [lookupT_cons_ne _ _ _ _ (fun h => tmp_ne_self st.table_name h)]
      exact hlive

/-- C3 (amended): provided every field's start matches the operation's
column-extraction pattern (true of ordinary columns and of table-level
constraint fragments, whose first word is taken as the identifier), a column
name equal to none of the extracted identifiers makes each operation return
`(false, message naming the column)` with the database and the in-memory
field list untouched; a fragment failing the pattern instead crashes the
extraction (see the counterexample). -/
theorem C3_amended :
    (∀ (st : SqueakSt) (db : DbState) (c : String) (safe ok : Bool) (cols : List String),
      extractCols st.fields = some cols → c ∉ cols →
      drop_column st db c safe ok
        = OpOut.mk (.ok (false, "No such column: '" ++ c ++ "'")) db st) ∧
    (∀ (st : SqueakSt) (db : DbState) (old new : String) (safe ok : Bool)
        (cols : List String),
      extractCols st.fields = some cols → old ∉ cols →
      rename_column st db old new safe ok
        = OpOut.mk (.ok (false, "No such column: '" ++ old ++ "'")) db st) ∧
    (∀ (st : SqueakSt) (db : DbState) (c d : String) (safe ok : Bool)
        (p : Bool × List String),
      replaceScanF c d st.fields = some p →
      (∀ f ∈ st.fields, ∀ n t, findallFirst f = some (n, t) → n ≠ c) →
      replace_definition st db c d safe ok
        = OpOut.mk (.ok (false, "No such column: " ++ c)) db st) := by
  refine ⟨?_, ?_, ?_⟩
  · intro st db c safe ok cols hx hc
    obtain ⟨csk, hscan⟩ := dropScan_no_match c st.fields cols hx hc
    simp only [drop_column, hscan]
    simp
  · intro st db old new safe ok cols hx hold
    rw [rename_column, renameScan_of_extract old new st.fields cols hx]
    simp [hold]
  · intro st db c d safe ok p hp hn
    obtain ⟨found, fs'⟩ := p
    have hfound : found = false := replaceScanF_not_found c d st.fields found fs' hp hn
    subst hfound
    simp only [replace_definition, hp]
    simp

/-- C4 (amended): `drop_column(C, safe)` removes EVERY field whose leading
identifier equals C, so the new list's length is the old length minus the
number of matching fields — at least one, but more when identifiers repeat
(see the counterexample); surviving fields keep their order and the call
returns `(true, "Column 'C' dropped.")`.  The preconditions are the
migration's: some field must survive, the live table exists, no shadow
table, and in safe mode no archive table.  For a C matching no field's
leading identifier the field list and the database are unchanged and the
result is `(false, "No such column: 'C'")`. -/
theorem C4_amended :
    (∀ (st : SqueakSt) (db : DbState) (c : String) (safe : Bool) (tbl : Table)
      (cols : List String),
      extractCols st.fields = some cols → c ∈ cols →
      ((st.fields.zip cols).filter (fun p => p.2 ≠ c)).map Prod.fst ≠ [] →
      lookupT db (st.table_name ++ "_tmp") = none →
      lookupT db st.table_name = some tbl →
      (safe = true → lookupT db (st.table_name ++ "_initial") = none) →
      (drop_column st db c safe true).result
        = .ok (true, "Column '" ++ c ++ "' dropped.") ∧
      (drop_column st db c safe true).st.fields
        = ((st.fields.zip cols).filter (fun p => p.2 ≠ c)).map Prod.fst ∧
      (drop_column st db c safe true).st.fields.length
          + ((st.fields.zip cols).filter (fun p => p.2 = c)).length
        = st.fields.length ∧
      0 < ((st.fields.zip cols).filter (fun p => p.2 = c)).length) ∧
    (∀ (st : SqueakSt) (db : DbState) (c : String) (safe ok : Bool)
      (cols : List String),
      extractCols st.fields = some cols → c ∉ cols →
      drop_column st db c safe ok
        = OpOut.mk (.ok (false, "No such column: '" ++ c ++ "'")) db st) := by
  constructor
  · intro st db c safe tbl cols hx hc hnf htmp hlive hini
    have hclen := extractCols_length _ _ hx
    have hzlen : (st.fields.zip cols).length = st.fields.length := by
      rw [List.length_zip, hclen, Nat.min_self, ← hclen]
    have hpos := zip_filter_pos st.fields cols c hclen hc
    have hsplit := length_filter_split (st.fields.zip cols) (fun p => decide (p.2 = c))
    have hkept : (((st.fields.zip cols).filter (fun p => p.2 ≠ c)).map Prod.fst).length
        = ((st.fields.zip cols).filter (fun p => !decide (p.2 = c))).length := by
      simp
    have hlen : (((st.fields.zip cols).filter (fun p => p.2 ≠ c)).map Prod.fst).length
        ≠ st.fields.length := by
      rw [hkept]
      omega
    rw [drop_column_run st db c safe tbl cols hx hlen hnf htmp hlive hini]
    refine ⟨rfl, rfl, ?_, hpos⟩
    simp only []
    rw [hkept]
    omega
  · intro st db c safe ok cols hx hc
    obtain ⟨csk, hscan⟩ := dropScan_no_match c st.fields cols hx hc
    simp only [drop_column, hscan]
    simp

/-- C5 (amended): `rename_column` rewrites EVERY field whose leading
identifier equals `old_name` (the loop has no break; see the counterexample
for two matching fields), replacing just the optionally quoted leading
identifier by the double-quoted new name and leaving the rest of that
field's text untouched; non-matching fields pass through byte-for-byte, and
on success the call returns `(true, "Column 'old' renamed to 'new'.")`. -/
theorem C5_amended :
    ∀ (st : SqueakSt) (db : DbState) (old new : String) (safe : Bool) (tbl : Table)
      (cols : List String),
      extractCols st.fields = some cols → old ∈ cols →
      lookupT db (st.table_name ++ "_tmp") = none →
      lookupT db st.table_name = some tbl →
      (safe = true → lookupT db (st.table_name ++ "_initial") = none) →
      (rename_column st db old new safe true).result
        = .ok (true, "Column '" ++ old ++ "' renamed to '" ++ new ++ "'.") ∧
      (rename_column st db old new safe true).st.fields
        = (st.fields.zip cols).map
            (fun p => if p.2 = old then renameField p.1 old new else p.1) := by
  intro st db old new safe tbl cols hx hold htmp hlive hini
  rw [rename_column_run st db old new safe tbl cols hx hold htmp hlive hini]
  exact ⟨rfl, rfl⟩

/-- C6 (amended): only the no-row catalog result raises the not-found fault
`SqueakError("No such table: '<name>'")`; a row with no usable creation SQL
escapes the handler and raises a different fault (AttributeError while
parsing `None`), and a row whose SQL does not parse as a CREATE TABLE (e.g.
an index's SQL) raises an unhandled IndexError.  On success the creation SQL
and the parsed field list are stored. -/
theorem C6_amended :
    (∀ t : String, squeakInit none t
      = .error (.squeakError ("No such table: '" ++ t ++ "'"))) ∧
    (∀ t : String, squeakInit (some none) t = .error .attributeError) ∧
    (∀ (t sql : String) (fs : List String), get_fields_from_sql sql = some fs →
      squeakInit (some (some sql)) t = .ok (sql, fs)) ∧
    (∀ t sql : String, get_fields_from_sql sql = none →
      squeakInit (some (some sql)) t = .error .indexError) := by
  refine ⟨fun t => rfl, fun t => rfl, ?_, ?_⟩
  · intro t sql fs h
    simp [squeakInit, h]
  · intro t sql h
    simp [squeakInit, h]

/-- C7 (amended): the extraction tolerates every fragment whose start
matches the identifier pattern — in particular a table-level FOREIGN KEY
fragment, whose first word is (spuriously) taken as the identifier — and
under that condition no operation raises the extraction faults
(AttributeError/IndexError); a fragment failing the pattern does crash the
operation (see the counterexample). -/
theorem C7_amended :
    matchColName "FOREIGN KEY (\"table\") REFERENCES \"my_table\" (\"id\")"
      = some "FOREIGN" ∧
    (∀ (st : SqueakSt) (db : DbState) (c : String) (safe ok : Bool) (cols : List String),
      extractCols st.fields = some cols →
      (drop_column st db c safe ok).result ≠ .error .attributeError ∧
      (drop_column st db c safe ok).result ≠ .error .indexError) ∧
    (∀ (st : SqueakSt) (db : DbState) (old new : String) (safe ok : Bool)
        (cols : List String),
      extractCols st.fields = some cols →
      (rename_column st db old new safe ok).result ≠ .error .attributeError ∧
      (rename_column st db old new safe ok).result ≠ .error .indexError) ∧
    (∀ (st : SqueakSt) (db : DbState) (c d : String) (safe ok : Bool)
        (p : Bool × List String),
      replaceScanF c d st.fields = some p →
      (replace_definition st db c d safe ok).result ≠ .error .attributeError ∧
      (replace_definition st db c d safe ok).result ≠ .error .indexError) := by
  refine ⟨by decide, ?_, ?_, ?_⟩
  · intro st db c safe ok cols hx
    have hscan : dropScan c st.fields ≠ none := by
      rw [dropScan_of_extract c st.fields cols hx]
      simp
    rcases drop_column_cases st db c safe ok with h | h | h | h
    · exact absurd hscan h.2.2.2
    · obtain ⟨m, hres, -, -⟩ := h
      rw [hres]
      simp
    · obtain ⟨e, hres, he, -, -⟩ := h
      rw [hres]
      rcases he with he | he <;> subst he <;> simp
    · obtain ⟨nf, s, m, hres, -⟩ := h
      rw [hres]
      simp
  · intro st db old new safe ok cols hx
    have hscan : renameScan old new st.fields ≠ none := by
      rw [renameScan_of_extract old new st.fields cols hx]
      simp
    rcases rename_column_cases st db old new safe ok with h | h | h | h
    · exact absurd hscan h.2.2.2
    · obtain ⟨m, hres, -, -⟩ := h
      rw [hres]
      simp
    · obtain ⟨e, hres, he, -, -⟩ := h
      rw [hres]
      rcases he with he | he <;> subst he <;> simp
    · obtain ⟨nf, s, m, hres, -⟩ := h
      rw [hres]
      simp
  · intro st db c d safe ok p hp
    have hscan : replaceScanF c d st.fields ≠ none := by
      simp [hp]
    rcases replace_definition_cases st db c d safe ok with h | h | h | h
    · exact absurd hscan h.2.2.2
    · obtain ⟨m, hres, -, -⟩ := h
      rw [hres]
      simp
    · obtain ⟨e, hres, he, -, -⟩ := h
      rw [hres]
      rcases he with he | he <;> subst he <;> simp
    · obtain ⟨nf, s, m, hres, -⟩ := h
      rw [hres]
      simp

/-- What C8 asserts a successfully completed call leaves behind. -/
def ShadowPost (db : DbState) (st : SqueakSt) (safe : Bool) (r : OpOut) : Prop :=
  lookupT db (st.table_name ++ "_tmp") = none ∧
  lookupT r.db (st.table_name ++ "_tmp") = none ∧
  (safe = true → lookupT r.db (st.table_name ++ "_initial")
    = lookupT db st.table_name ∧ lookupT db st.table_name ≠ none) ∧
  (safe = false → lookupT r.db (st.table_name ++ "_initial")
    = lookupT db (st.table_name ++ "_initial"))

theorem ProtocolPost.shadow {db : DbState} {st : SqueakSt} {safe : Bool} {r : OpOut}
    (h : ProtocolPost db st safe r) : ShadowPost db st safe r := by
  obtain ⟨nf, s, m, -, -, htmp, hposttmp, hs, -, hsafe, hunsafe⟩ := h
  refine ⟨htmp, hposttmp, ?_, hunsafe⟩
  intro ht
  obtain ⟨hini, -⟩ := hsafe ht
  rw [hini, hs]
  simp [hs]

/-- C8: after a fully successful call (result `(true, message)`), in safe
mode `<table>_initial` holds exactly what was the live table before the
call, in unsafe mode no `<table>_initial` appears from the call, and in
either mode no `<table>_tmp` table exists before or after the completed
call. -/
theorem C8_shadow_tables :
    (∀ (st : SqueakSt) (db : DbState) (c : String) (safe ok : Bool) (m : String),
      (drop_column st db c safe ok).result = .ok (true, m) →
      ShadowPost db st safe (drop_column st db c safe ok)) ∧
    (∀ (st : SqueakSt) (db : DbState) (old new : String) (safe ok : Bool) (m : String),
      (rename_column st db old new safe ok).result = .ok (true, m) →
      ShadowPost db st safe (rename_column st db old new safe ok)) ∧
    (∀ (st : SqueakSt) (db : DbState) (c d : String) (safe ok : Bool) (m : String),
      (replace_definition st db c d safe ok).result = .ok (true, m) →
      ShadowPost db st safe (replace_definition st db c d safe ok)) := by
  refine ⟨?_, ?_, ?_⟩
  · intro st db c safe ok m h
    rcases drop_column_cases st db c safe ok with hc | hc | hc | hc
    · rw [hc.1] at h; exact absurd h (by simp)
    · obtain ⟨m2, hres, -, -⟩ := hc
      rw [hres] at h
      simp at h
    · obtain ⟨e, hres, -, -, -⟩ := hc
      rw [hres] at h
      exact absurd h (by simp)
    · exact hc.shadow
  · intro st db old new safe ok m h
    rcases rename_column_cases st db old new safe ok with hc | hc | hc | hc
    · rw [hc.1] at h; exact absurd h (by simp)
    · obtain ⟨m2, hres, -, -⟩ := hc
      rw [hres] at h
      simp at h
    · obtain ⟨e, hres, -, -, -⟩ := hc
      rw [hres] at h
      exact absurd h (by simp)
    · exact hc.shadow
  · intro st db c d safe ok m h
    rcases replace_definition_cases st db c d safe ok with hc | hc | hc | hc
    · rw [hc.1] at h; exact absurd h (by simp)
    · obtain ⟨m2, hres, -, -⟩ := hc
      rw [hres] at h
      simp at h
    · obtain ⟨e, hres, -, -, -⟩ := hc
      rw [hres] at h
      exact absurd h (by simp)
    · exact hc.shadow

/-- What C9 asserts at every return point: the field list is replaced only
by a fully successful call, and always equals the schema of the table
currently stored under `table_name`. -/
def FieldsSync (st : SqueakSt) (r : OpOut) : Prop :=
  ((∀ m, r.result ≠ Except.ok (true, m)) → r.st = st) ∧
  ∃ tbl', lookupT r.db st.table_name = some tbl' ∧ tbl'.schema = r.st.fields

/-- C9: under the constructor-established invariant (the live table's stored
schema is the in-memory field list), every call — on success, on a
`(false, message)` return, and on every raised exception — returns with the
in-memory field list equal to the schema of the table named `table_name` on
disk, and any non-successful outcome leaves the instance state untouched. -/
theorem C9_fields_sync :
    ∀ (st : SqueakSt) (db : DbState) (tbl : Table),
      lookupT db st.table_name = some tbl → tbl.schema = st.fields →
      (∀ c safe ok, FieldsSync st (drop_column st db c safe ok)) ∧
      (∀ old new safe ok, FieldsSync st (rename_column st db old new safe ok)) ∧
      (∀ c d safe ok, FieldsSync st (replace_definition st db c d safe ok)) := by
  intro st db tbl hlive hsch
  have sync : ∀ (r : OpOut) (scanExc : PyExc) (scanOk : Prop) (safe : Bool),
      OpCases db st safe scanExc scanOk r → FieldsSync st r := by
    intro r scanExc scanOk safe hcases
    rcases hcases with h | h | h | h
    · obtain ⟨hres, hdb, hst, -⟩ := h
      exact ⟨fun _ => hst, ⟨tbl, by rw [hdb]; exact hlive, by rw [hst]; exact hsch⟩⟩
    · obtain ⟨m, hres, hdb, hst⟩ := h
      exact ⟨fun _ => hst, ⟨tbl, by rw [hdb]; exact hlive, by rw [hst]; exact hsch⟩⟩
    · obtain ⟨e, hres, -, hst, hdb⟩ := h
      refine ⟨fun _ => hst, ⟨tbl, ?_, by rw [hst]; exact hsch⟩⟩
      rw [hdb]
      exact hlive
    · obtain ⟨nf, s, m, hres, hst, -, -, -, hpost, -, -⟩ := h
      refine ⟨fun hno => absurd hres (hno m), ⟨Table.mk nf s.rows, hpost, ?_⟩⟩
      rw [hst]
  refine ⟨?_, ?_, ?_⟩
  · intro c safe ok
    exact sync _ _ _ safe (drop_column_cases st db c safe ok)
  · intro old new safe ok
    exact sync _ _ _ safe (rename_column_cases st db old new safe ok)
  · intro c d safe ok
    exact sync _ _ _ safe (replace_definition_cases st db c d safe ok)

/-! ## Round-trip facts about `replace_definition`'s field parsing (C10) -/

theorem takeWhile_append_all (p : Char → Bool) (l r : List Char)
    (hl : ∀ x ∈ l, p x) : (l ++ r).takeWhile p = l ++ r.takeWhile p := by
  induction l with
  | nil => simp
  | cons a l ih =>
    have ha := hl a (by simp)
    simp only [List.cons_append, List.takeWhile_cons, ha, if_true]
    rw [ih (fun x hx => hl x (by simp [hx]))]

theorem dropWhile_append_all (p : Char → Bool) (l r : List Char)
    (hl : ∀ x ∈ l, p x) : (l ++ r).dropWhile p = r.dropWhile p := by
  induction l with
  | nil => simp
  | cons a l ih =>
    have ha := hl a (by simp)
    simp only [List.cons_append, List.dropWhile_cons, ha, if_true]
    exact ih (fun x hx => hl x (by simp [hx]))

theorem takeWhile_all (p : Char → Bool) (l : List Char)
    (hl : ∀ x ∈ l, p x) : l.takeWhile p = l := by
  induction l with
  | nil => rfl
  | cons a l ih =>
    have ha := hl a (by simp)
    simp only [List.takeWhile_cons, ha, if_true]
    rw [ih (fun x hx => hl x (by simp [hx]))]

theorem mem_takeWhile_word (l : List Char) (ch : Char)
    (h : ch ∈ l.takeWhile isWordChar) : isWordChar ch := by
  induction l with
  | nil => simp [List.takeWhile] at h
  | cons a l ih =>
    rw [List.takeWhile_cons] at h
    by_cases ha : isWordChar a
    · simp [ha] at h
      rcases h with h | h
      · subst h; exact ha
      · exact ih h
    · simp [ha] at h

theorem data_mk (l : List Char) : (String.mk l).data = l := rfl

theorem mk_data (s : String) : String.mk s.data = s := rfl

/-- The identifier returned by the `replace_definition` field pattern is a
non-empty run of word characters. -/
theorem findallAt_name (cs w d : List Char) (h : findallAt cs = some (w, d)) :
    w ≠ [] ∧ ∀ ch ∈ w, isWordChar ch := by
  rw [findallAt] at h
  by_cases hw : ((dropOneQuote cs).takeWhile isWordChar).isEmpty
  · simp [hw] at h
  · simp only [hw, if_false] at h
    cases hd : (dropOneQuote cs).dropWhile isWordChar with
    | nil => rw [hd] at h; exact absurd h (by simp)
    | cons c cs2 =>
      rw [hd] at h
      have hw2 : ∀ ch ∈ (dropOneQuote cs).takeWhile isWordChar, isWordChar ch :=
        fun ch hch => mem_takeWhile_word _ ch hch
      by_cases hq : isQuoteChar c
      · simp only [hq, if_true] at h
        cases cs2 with
        | nil => exact absurd h (by simp)
        | cons c2 cs3 =>
          by_cases hsp : isPySpace c2
          · simp [hsp] at h
            obtain ⟨hw', -⟩ := h
            subst hw'
            exact ⟨by simpa using hw, hw2⟩
          · simp [hsp] at h
      · simp only [hq, if_false] at h
        by_cases hsp : isPySpace c
        · simp [hsp] at h
          obtain ⟨hw', -⟩ := h
          subst hw'
          exact ⟨by simpa using hw, hw2⟩
        · simp [hsp] at h

theorem findallFirstL_name (cs w d : List Char) (h : findallFirstL cs = some (w, d)) :
    w ≠ [] ∧ ∀ ch ∈ w, isWordChar ch := by
  induction cs with
  | nil => simp [findallFirstL] at h
  | cons c rest ih =>
    rw [findallFirstL] at h
    cases ha : findallAt (c :: rest) with
    | some r =>
      rw [ha] at h
      simp at h
      subst h
      exact findallAt_name _ _ _ ha
    | none =>
      rw [ha] at h
      exact ih h

theorem findallFirst_name (f n t : String) (h : findallFirst f = some (n, t)) :
    n.data ≠ [] ∧ ∀ ch ∈ n.data, isWordChar ch := by
  rw [findallFirst] at h
  cases hl : findallFirstL f.data with
  | none => rw [hl] at h; exact absurd h (by simp)
  | some p =>
    obtain ⟨w, d⟩ := p
    rw [hl] at h
    simp at h
    obtain ⟨hn, -⟩ := h
    have := findallFirstL_name _ _ _ hl
    rw [← hn]
    exact this

/-- The canonical fields rebuilt by `replace_definition` parse back to
exactly their (identifier, tail) pair. -/
theorem findallFirst_canonical (n t : String)
    (hne : n.data ≠ []) (hword : ∀ ch ∈ n.data, isWordChar ch)
    (hnl : '\n' ∉ t.data) :
    findallFirst ("\"" ++ n ++ "\" " ++ t) = some (n, t) := by
  have hdata : ("\"" ++ n ++ "\" " ++ t).data
      = '"' :: (n.data ++ ('"' :: ' ' :: t.data)) := by
    simp [String.data_append]
  have hat : findallAt ('"' :: (n.data ++ ('"' :: ' ' :: t.data))) = some (n.data, t.data) := by
    rw [findallAt]
    have hq : dropOneQuote ('"' :: (n.data ++ ('"' :: ' ' :: t.data)))
        = n.data ++ ('"' :: ' ' :: t.data) := by
      simp [dropOneQuote, isQuoteChar]
    rw [hq]
    have htake : (n.data ++ ('"' :: ' ' :: t.data)).takeWhile isWordChar = n.data := by
      rw [takeWhile_append_all _ _ _ hword]
      simp [List.takeWhile_cons, isWordChar]
    have hdrop : (n.data ++ ('"' :: ' ' :: t.data)).dropWhile isWordChar
        = '"' :: ' ' :: t.data := by
      rw [dropWhile_append_all _ _ _ hword]
      simp [List.dropWhile_cons, isWordChar]
    rw [htake, hdrop]
    have hne2 : n.data.isEmpty = false := by
      cases hnd : n.data with
      | nil => exact absurd hnd hne
      | cons a l => rfl
    have htall : t.data.takeWhile (fun x => decide (x ≠ '\n')) = t.data := by
      apply takeWhile_all
      intro x hx
      simp only [decide_eq_true_eq, ne_eq]
      intro hx2
      subst hx2
      exact absurd hx hnl
    have hq2 : isQuoteChar '"' = true := rfl
    have hsp : isPySpace ' ' = true := rfl
    simp [hne2, hq2, hsp, htall]
    intro x hx hx2
    subst hx2
    exact absurd hx hnl
  rw [findallFirst, hdata]
  rw [findallFirstL, hat]

/-- C10 (amended): the transformation is idempotent once no tail (nor the
new definition) is changed by the trailing-comma trim: if every field parses
to (identifier, tail) with a trim-inert, newline-free tail, and the new
definition is trim-inert and newline-free, then a second application of
`replace_definition`'s field rewrite returns the first application's output
unchanged, with the same found flag.  (Without the trim-inertness the claim
fails — see the counterexample, where a tail `y,,` keeps shrinking.) -/
theorem C10_amended :
    ∀ (c d : String) (fields : List String) (found : Bool) (fs1 : List String),
      '\n' ∉ d.data → trimComma d = some d →
      (∀ f ∈ fields, ∃ n t, findallFirst f = some (n, t) ∧ trimComma t = some t ∧
        '\n' ∉ t.data) →
      replaceScanF c d fields = some (found, fs1) →
      replaceScanF c d fs1 = some (found, fs1) := by
  intro c d fields
  induction fields with
  | nil =>
    intro found fs1 _ _ _ h
    simp [replaceScanF] at h
    obtain ⟨h1, h2⟩ := h
    subst h1
    subst h2
    rfl
  | cons f fs ih =>
    intro found fs1 hdnl hdtrim hall h
    obtain ⟨n, t, hf, httrim, htnl⟩ := hall f (by simp)
    have hname := findallFirst_name f n t hf
    simp only [replaceScanF, hf] at h
    by_cases hnc : n = c
    · rw [if_pos hnc] at h
      simp only [hdtrim] at h
      cases hrest : replaceScanF c d fs with
      | none => rw [hrest] at h; exact absurd h (by simp)
      | some q =>
        obtain ⟨bf, rest1⟩ := q
        rw [hrest] at h
        simp only [Option.some.injEq, Prod.mk.injEq] at h
        obtain ⟨hfound, hfs1⟩ := h
        subst hfound
        subst hfs1
        have hihr := ih bf rest1 hdnl hdtrim (fun g hg => hall g (by simp [hg])) hrest
        have hcanon := findallFirst_canonical n d hname.1 hname.2 hdnl
        simp only [replaceScanF, hcanon, if_pos hnc, hdtrim, hihr]
    · rw [if_neg hnc] at h
      simp only [httrim] at h
      cases hrest : replaceScanF c d fs with
      | none => rw [hrest] at h; exact absurd h (by simp)
      | some q =>
        obtain ⟨bf, rest1⟩ := q
        rw [hrest] at h
        simp only [Option.some.injEq, Prod.mk.injEq] at h
        obtain ⟨hfound, hfs1⟩ := h
        subst hfound
        subst hfs1
        have hihr := ih bf rest1 hdnl hdtrim (fun g hg => hall g (by simp [hg])) hrest
        have hcanon := findallFirst_canonical n t hname.1 hname.2 htnl
        simp only [replaceScanF, hcanon, if_neg hnc, httrim, hihr]

/-! ## Concrete witnesses instantiating the hypothesised theorems -/

theorem C1_amended_witness :
    replace_definition (SqueakSt.mk "t" ["\"a\" int"]) [("t", Table.mk ["\"a\" int"] [])]
        "a" "num" false false
      = OpOut.mk (.ok (false, integrityMsg)) [("t", Table.mk ["\"a\" int"] [])]
          (SqueakSt.mk "t" ["\"a\" int"]) ∧
    (drop_column (SqueakSt.mk "t" ["\"a\" int", "\"b\" int"])
        [("t", Table.mk ["\"a\" int", "\"b\" int"] [])] "a" false false).result
      = .error .integrityError ∧
    (rename_column (SqueakSt.mk "t" ["\"a\" int", "\"b\" int"])
        [("t", Table.mk ["\"a\" int", "\"b\" int"] [])] "a" "b2" false false).result
      = .error .integrityError :=
  ⟨C1_amended.1 (SqueakSt.mk "t" ["\"a\" int"]) [("t", Table.mk ["\"a\" int"] [])]
      "a" "num" false (Table.mk ["\"a\" int"] []) ["\"a\" num"]
      (by decide) (by decide) (by decide) (by decide),
   (C1_amended.2.1 (SqueakSt.mk "t" ["\"a\" int", "\"b\" int"])
      [("t", Table.mk ["\"a\" int", "\"b\" int"] [])] "a" false
      (Table.mk ["\"a\" int", "\"b\" int"] []) ["a", "b"]
      (by decide) (by decide) (by decide) (by decide) (by decide)).1,
   (C1_amended.2.2 (SqueakSt.mk "t" ["\"a\" int", "\"b\" int"])
      [("t", Table.mk ["\"a\" int", "\"b\" int"] [])] "a" "b2" false
      (Table.mk ["\"a\" int", "\"b\" int"] []) ["a", "b"]
      (by decide) (by decide) (by decide) (by decide)).1⟩

theorem C3_amended_witness :
    drop_column (SqueakSt.mk "t" ["\"a\" int"]) [("t", Table.mk ["\"a\" int"] [])]
        "z" false true
      = OpOut.mk (.ok (false, "No such column: 'z'")) [("t", Table.mk ["\"a\" int"] [])]
          (SqueakSt.mk "t" ["\"a\" int"]) ∧
    rename_column (SqueakSt.mk "t" ["\"a\" int"]) [("t", Table.mk ["\"a\" int"] [])]
        "z" "w" false true
      = OpOut.mk (.ok (false, "No such column: 'z'")) [("t", Table.mk ["\"a\" int"] [])]
          (SqueakSt.mk "t" ["\"a\" int"]) ∧
    replace_definition (SqueakSt.mk "t" ["\"a\" int"]) [("t", Table.mk ["\"a\" int"] [])]
        "z" "num" false true
      = OpOut.mk (.ok (false, "No such column: z")) [("t", Table.mk ["\"a\" int"] [])]
          (SqueakSt.mk "t" ["\"a\" int"]) :=
  ⟨C3_amended.1 (SqueakSt.mk "t" ["\"a\" int"]) [("t", Table.mk ["\"a\" int"] [])]
      "z" false true ["a"] (by decide) (by decide),
   C3_amended.2.1 (SqueakSt.mk "t" ["\"a\" int"]) [("t", Table.mk ["\"a\" int"] [])]
      "z" "w" false true ["a"] (by decide) (by decide),
   C3_amended.2.2 (SqueakSt.mk "t" ["\"a\" int"]) [("t", Table.mk ["\"a\" int"] [])]
      "z" "num" false true (false, ["\"a\" int"]) (by decide)
      (by
        intro f hf n t hft
        have hfeq : f = "\"a\" int" := by simpa using hf
        subst hfeq
        have hval : findallFirst "\"a\" int" = some ("a", "int") := by decide
        rw [hval] at hft
        have hn : n = "a" := by
          have := Option.some.inj hft
          exact (Prod.mk.injEq _ _ _ _ ▸ this).1.symm
        subst hn
        decide)⟩

theorem C4_amended_witness :
    (drop_column (SqueakSt.mk "t" ["\"a\" int", "\"b\" int"])
        [("t", Table.mk ["\"a\" int", "\"b\" int"] [])] "a" false true).result
      = .ok (true, "Column 'a' dropped.") ∧
    (drop_column (SqueakSt.mk "t" ["\"a\" int", "\"b\" int"])
        [("t", Table.mk ["\"a\" int", "\"b\" int"] [])] "a" false true).st.fields
      = ["\"b\" int"] ∧
    drop_column (SqueakSt.mk "t" ["\"a\" int", "\"b\" int"])
        [("t", Table.mk ["\"a\" int", "\"b\" int"] [])] "zz" false true
      = OpOut.mk (.ok (false, "No such column: 'zz'"))
          [("t", Table.mk ["\"a\" int", "\"b\" int"] [])]
          (SqueakSt.mk "t" ["\"a\" int", "\"b\" int"]) := by
  have h := C4_amended.1 (SqueakSt.mk "t" ["\"a\" int", "\"b\" int"])
    [("t", Table.mk ["\"a\" int", "\"b\" int"] [])] "a" false
    (Table.mk ["\"a\" int", "\"b\" int"] []) ["a", "b"]
    (by decide) (by decide) (by decide) (by decide) (by decide)
    (by intro hh; exact absurd hh (by decide))
  have h2 := C4_amended.2 (SqueakSt.mk "t" ["\"a\" int", "\"b\" int"])
    [("t", Table.mk ["\"a\" int", "\"b\" int"] [])] "zz" false true ["a", "b"]
    (by decide) (by decide)
  refine ⟨h.1, ?_, h2⟩
  rw [h.2.1]
  decide

theorem C5_amended_witness :
    (rename_column (SqueakSt.mk "t" ["\"a\" int", "\"c\" text"])
        [("t", Table.mk ["\"a\" int", "\"c\" text"] [])] "a" "b" false true).result
      = .ok (true, "Column 'a' renamed to 'b'.") ∧
    (rename_column (SqueakSt.mk "t" ["\"a\" int", "\"c\" text"])
        [("t", Table.mk ["\"a\" int", "\"c\" text"] [])] "a" "b" false true).st.fields
      = ["\"b\" int", "\"c\" text"] := by
  have h := C5_amended (SqueakSt.mk "t" ["\"a\" int", "\"c\" text"])
    [("t", Table.mk ["\"a\" int", "\"c\" text"] [])] "a" "b" false
    (Table.mk ["\"a\" int", "\"c\" text"] []) ["a", "c"]
    (by decide) (by decide) (by decide) (by decide)
    (by intro hh; exact absurd hh (by decide))
  refine ⟨h.1, ?_⟩
  rw [h.2]
  decide

theorem C6_amended_witness :
    squeakInit none "q" = .error (.squeakError "No such table: 'q'") ∧
    squeakInit (some (some "CREATE TABLE \"t\" (\"a\" integer)")) "t"
      = .ok ("CREATE TABLE \"t\" (\"a\" integer)", ["\"a\" integer"]) ∧
    squeakInit (some (some "CREATE INDEX i ON t (a)")) "t" = .error .indexError := by
  refine ⟨?_, ?_, ?_⟩
  · rw [C6_amended.1 "q"]
    decide
  · exact C6_amended.2.2.1 "t" "CREATE TABLE \"t\" (\"a\" integer)" ["\"a\" integer"] rfl
  · exact C6_amended.2.2.2 "t" "CREATE INDEX i ON t (a)" rfl

theorem C7_amended_witness :
    (drop_column (SqueakSt.mk "t" ["\"a\" int"]) [] "a" false true).result
      ≠ .error .attributeError ∧
    (rename_column (SqueakSt.mk "t" ["\"a\" int"]) [] "a" "b" false true).result
      ≠ .error .attributeError ∧
    (replace_definition (SqueakSt.mk "t" ["\"a\" int"]) [] "a" "x" false true).result
      ≠ .error .indexError :=
  ⟨(C7_amended.2.1 (SqueakSt.mk "t" ["\"a\" int"]) [] "a" false true ["a"] (by decide)).1,
   (C7_amended.2.2.1 (SqueakSt.mk "t" ["\"a\" int"]) [] "a" "b" false true ["a"]
      (by decide)).1,
   (C7_amended.2.2.2 (SqueakSt.mk "t" ["\"a\" int"]) [] "a" "x" false true
      (true, ["\"a\" x"]) (by decide)).2⟩

theorem C8_shadow_tables_witness :
    ShadowPost [("t", Table.mk ["\"a\" int", "\"b\" int"] [])]
      (SqueakSt.mk "t" ["\"a\" int", "\"b\" int"]) true
      (drop_column (SqueakSt.mk "t" ["\"a\" int", "\"b\" int"])
        [("t", Table.mk ["\"a\" int", "\"b\" int"] [])] "a" true true) :=
  C8_shadow_tables.1 (SqueakSt.mk "t" ["\"a\" int", "\"b\" int"])
    [("t", Table.mk ["\"a\" int", "\"b\" int"] [])] "a" true true
    "Column 'a' dropped." (by decide)

theorem C9_fields_sync_witness :
    FieldsSync (SqueakSt.mk "t" ["\"a\" int"])
      (drop_column (SqueakSt.mk "t" ["\"a\" int"])
        [("t", Table.mk ["\"a\" int"] [])] "zz" false true) :=
  (C9_fields_sync (SqueakSt.mk "t" ["\"a\" int"]) [("t", Table.mk ["\"a\" int"] [])]
    (Table.mk ["\"a\" int"] []) (by decide) (by decide)).1 "zz" false true

theorem C10_amended_witness :
    replaceScanF "a" "num" ["\"a\" num", "\"b\" text"]
      = some (true, ["\"a\" num", "\"b\" text"]) :=
  C10_amended "a" "num" ["\"a\" int", "\"b\" text"] true ["\"a\" num", "\"b\" text"]
    (by decide) (by decide)
    (by
      intro f hf
      rcases List.mem_cons.mp hf with h | h
      · subst h
        exact ⟨"a", "int", by decide, by decide, by decide⟩
      · have hfeq : f = "\"b\" text" := by simpa using h
        subst hfeq
        exact ⟨"b", "text", by decide, by decide, by decide⟩)
    (by decide)

end Squeak
